import Mathlib

/-!
Verification of the local-memory layer-grouping scheduler implemented in
`lib/Dialect/Tpu/Transforms/LayerGroup/LayerGroupUtil.cpp`.

The C++ functions are embedded shallowly: machine `int64_t` values become
`Int` (every division in the embedded code is applied to a non-negative
numerator and positive denominator, where C++ truncated division and Lean
integer division agree), `std::vector<std::pair<int64_t,int64_t>>` becomes
`List (Int × Int)`, `LogicalResult`/`bool` failure becomes `Option`/`Bool`,
and the MLIR graph (operations, values, producers, users) becomes an explicit
environment of integer handles.  Per-operation callbacks (`BackwardN`,
`BackwardH`, `AllowDataSplit`) and per-value shape queries (`getNCDHW`) are
external interfaces of the scheduler and are passed in as function
parameters.
-/

namespace LayerGroup

/-- Modelled from the spec: `slice_pair_t` (declared in the LayerGroup
headers, which are not part of the available sources): a
`(start index, length)` pair along one dimension of one tensor. -/
abbrev slice_pair_t := Int × Int

/-- Modelled from the spec: `slice_info_t` (declared in the LayerGroup
headers): per tensor, an ordered sequence of slice pairs for the batch (n)
dimension and a separate ordered sequence for the height (h) dimension. -/
structure slice_info_t where
  n : List slice_pair_t := []
  h : List slice_pair_t := []
  deriving DecidableEq, Repr

/-- Modelled from the spec: `shape_secs_t` (declared in the LayerGroup
headers): the candidate split factors `{nsecs, hsecs}`. -/
structure shape_secs_t where
  nsecs : Int
  hsecs : Int
  deriving DecidableEq, Repr

/-- Modelled from the spec: `ceiling_func` (declared in `Support/MathUtils.h`,
which is not part of the available sources): ceiling division, used by the
scheduler for section counts and alignment. -/
def ceiling_func (numerator denominator : Int) : Int :=
  (numerator + denominator - 1) / denominator

/-- Loop body of one dimension of `get_out_slice_info`
(LayerGroupUtil.cpp:264-288): iteration `i` computes `step`, `idx`, `slice`.
The C++ expression `(n % secs > i)` converts a bool to an integer 0/1, and
the C++ ternary operators become `if` terms. -/
def out_slice_at (secs ext i : Int) : slice_pair_t :=
  let step : Int := ext / secs + (if ext % secs > i then 1 else 0)
  let idx : Int := ext / secs * i + (if ext % secs > i then i else ext % secs)
  let slice : Int := if (ext - idx) > step then step else (ext - idx)
  (idx, slice)

/-- One dimension of `get_out_slice_info` (LayerGroupUtil.cpp:264-288): the
loop `for (i = 0; i < secs; ++i)` collecting the slice pairs. -/
def out_slice_dim (secs ext : Int) : List slice_pair_t :=
  (List.range secs.toNat).map (fun (i0 : Nat) => out_slice_at secs ext (i0 : Int))

/-- `get_out_slice_info` (LayerGroupUtil.cpp:264-288): the exact-mode seed
partition of an output tensor of batch extent `n` and height extent `h`. -/
def get_out_slice_info (shape_secs : shape_secs_t) (n h : Int) : slice_info_t :=
  { n := out_slice_dim shape_secs.nsecs n
    h := out_slice_dim shape_secs.hsecs h }

/-- `is_same_slice` (LayerGroupUtil.cpp:213-215). -/
def is_same_slice (a b : slice_pair_t) : Bool :=
  decide (a.1 = b.1) && decide (a.2 = b.2)

/-- `is_same_slice_info` (LayerGroupUtil.cpp:217-244): structural equality of
two slice-info records (same number of pairs on each dimension and pairwise
equal pairs). -/
def is_same_slice_info (si0 si1 : slice_info_t) : Bool :=
  if si0.n.length ≠ si1.n.length ∨ si0.h.length ≠ si1.h.length then false
  else
    (List.zip si0.n si1.n).all (fun p => is_same_slice p.1 p.2) &&
    (List.zip si0.h si1.h).all (fun p => is_same_slice p.1 p.2)

/-- Successive slice pairs are contiguous: each pair starts where the
previous one ended. -/
def slices_contiguous : List slice_pair_t → Bool
  | [] => true
  | [_] => true
  | a :: b :: rest => decide (b.1 = a.1 + a.2) && slices_contiguous (b :: rest)

/-- Sum of the lengths of a list of slice pairs. -/
def slices_len_sum : List slice_pair_t → Int
  | [] => 0
  | p :: rest => p.2 + slices_len_sum rest

/-- A nonempty contiguous run of slices starting at index 0 whose lengths sum
to the extent `e`: such a run partitions `[0, e)` exactly (sorted,
non-overlapping, covering). -/
def exact_partition (l : List slice_pair_t) (e : Int) : Prop :=
  l ≠ [] ∧ (l.headD (0, 0)).1 = 0 ∧ slices_contiguous l = true ∧
    slices_len_sum l = e

instance (l : List slice_pair_t) (e : Int) : Decidable (exact_partition l e) := by
  unfold exact_partition
  infer_instance

/-- The spec reading of claim C3: the extent `[0,e)` is divided into exactly
`s` contiguous pieces, every piece except the last having the even length
`e / s`, so that the last piece absorbs the remainder when `s` does not
divide `e`. -/
def last_piece_absorbs_remainder (l : List slice_pair_t) (e s : Int) : Prop :=
  l.length = s.toNat ∧ exact_partition l e ∧
    ∀ i (hi : i < l.length), i + 1 < l.length → (l.get ⟨i, hi⟩).2 = e / s

/-- What the code actually produces on a dimension: exactly `s` contiguous
pieces partitioning `[0, e)`, where piece `i` has length `e / s + 1` for
`i < e % s` and length `e / s` otherwise, i.e. the FIRST `e % s` pieces
absorb the remainder. -/
def first_pieces_absorb_remainder (l : List slice_pair_t) (e s : Int) : Prop :=
  l.length = s.toNat ∧ exact_partition l e ∧
    ∀ i (hi : i < l.length),
      (l.get ⟨i, hi⟩).2 = e / s + (if e % s > (i : Int) then 1 else 0)

lemma out_slice_dim_length (s e : Int) : (out_slice_dim s e).length = s.toNat := by
  rw [out_slice_dim, List.length_map, List.length_range]

lemma out_slice_dim_get_at (s e : Int) (i : Nat)
    (hi : i < (out_slice_dim s e).length) :
    (out_slice_dim s e).get ⟨i, hi⟩ = out_slice_at s e (i : Int) := by
  simp only [out_slice_dim, List.get_eq_getElem, List.getElem_map,
    List.getElem_range]

lemma out_slice_at_eq (s e : Int) (h1 : 1 ≤ s) (h2 : s ≤ e) (i : Int)
    (h0 : 0 ≤ i) (hsi : i < s) :
    out_slice_at s e i =
      (e / s * i + (if e % s > i then i else e % s),
       e / s + (if e % s > i then 1 else 0)) := by
  have hs0 : (0 : Int) < s := by omega
  have hq2 : e / s * s + e % s = e := by
    rw [mul_comm]; exact Int.ediv_add_emod e s
  have hr0 : 0 ≤ e % s := Int.emod_nonneg e (by omega)
  have hrs : e % s < s := Int.emod_lt_of_pos e hs0
  have hq0 : 0 ≤ e / s := Int.ediv_nonneg (by omega) (by omega)
  have hmul : e / s * (i + 1) ≤ e / s * s :=
    mul_le_mul_of_nonneg_left (by omega) hq0
  have hkey : (e / s * i + (if e % s > i then i else e % s)) +
      (e / s + (if e % s > i then 1 else 0)) ≤ e := by
    split_ifs with hc <;> nlinarith [hmul, hq2, hr0, hrs, hsi]
  have hgen : ∀ idx step : Int, idx + step ≤ e →
      (if (e - idx) > step then step else (e - idx)) = step := by
    intro idx step hle
    split_ifs with hgt
    · rfl
    · omega
  simp only [out_slice_at]
  rw [Prod.mk.injEq]
  exact ⟨rfl, hgen _ _ hkey⟩

lemma out_slice_dim_get (s e : Int) (h1 : 1 ≤ s) (h2 : s ≤ e) (i : Nat)
    (hi : i < (out_slice_dim s e).length) :
    (out_slice_dim s e).get ⟨i, hi⟩ =
      (e / s * (i : Int) + (if e % s > (i : Int) then (i : Int) else e % s),
       e / s + (if e % s > (i : Int) then 1 else 0)) := by
  rw [out_slice_dim_get_at s e i hi]
  have hlen := out_slice_dim_length s e
  refine out_slice_at_eq s e h1 h2 (i : Int) (by omega) ?_
  rw [hlen] at hi
  omega

lemma headD_eq_get (l : List slice_pair_t) (h : 0 < l.length) :
    l.headD (0, 0) = l.get ⟨0, h⟩ := by
  cases l with
  | nil => simp at h
  | cons a t => rfl

lemma slices_contiguous_iff_get :
    ∀ l : List slice_pair_t,
      slices_contiguous l = true ↔
        ∀ i, (h : i + 1 < l.length) →
          (l.get ⟨i + 1, h⟩).1 =
            (l.get ⟨i, Nat.lt_of_succ_lt h⟩).1 + (l.get ⟨i, Nat.lt_of_succ_lt h⟩).2
  | [] => by simp [slices_contiguous]
  | [a] => by simp [slices_contiguous]
  | a :: b :: rest => by
    rw [slices_contiguous]
    simp only [Bool.and_eq_true, decide_eq_true_eq]
    rw [slices_contiguous_iff_get (b :: rest)]
    constructor
    · rintro ⟨h0, hrec⟩ i hi
      match i with
      | 0 => exact h0
      | Nat.succ j =>
        exact hrec j (by simpa using hi)
    · intro hall
      refine ⟨hall 0 (by simp), ?_⟩
      intro j hj
      exact hall (j + 1) (by simpa using hj)

lemma slices_len_sum_contiguous :
    ∀ l : List slice_pair_t, slices_contiguous l = true → (hne : l ≠ []) →
      slices_len_sum l =
        (l.getLast hne).1 + (l.getLast hne).2 - (l.headD (0, 0)).1
  | [] => by intro _ hne; exact absurd rfl hne
  | [a] => by
    intro _ _
    simp only [slices_len_sum, List.getLast, List.headD]
    omega
  | a :: b :: rest => by
    intro hc hne
    rw [slices_contiguous] at hc
    simp only [Bool.and_eq_true, decide_eq_true_eq] at hc
    have hrec := slices_len_sum_contiguous (b :: rest) hc.2 (by simp)
    have hlast : (a :: b :: rest).getLast hne =
        (b :: rest).getLast (List.cons_ne_nil b rest) := rfl
    rw [slices_len_sum, hrec, hlast]
    simp only [List.headD]
    omega

lemma out_slice_dim_partition (s e : Int) (h1 : 1 ≤ s) (h2 : s ≤ e) :
    first_pieces_absorb_remainder (out_slice_dim s e) e s := by
  have hlen := out_slice_dim_length s e
  have hpos : 0 < (out_slice_dim s e).length := by rw [hlen]; omega
  have hne : out_slice_dim s e ≠ [] := List.ne_nil_of_length_pos hpos
  have hs0 : (0 : Int) < s := by omega
  have hq2 : e / s * s + e % s = e := by
    rw [mul_comm]; exact Int.ediv_add_emod e s
  have hr0 : 0 ≤ e % s := Int.emod_nonneg e (by omega)
  have hrs : e % s < s := Int.emod_lt_of_pos e hs0
  have hcont : slices_contiguous (out_slice_dim s e) = true := by
    rw [slices_contiguous_iff_get]
    intro i hstep
    rw [out_slice_dim_get s e h1 h2 i (Nat.lt_of_succ_lt hstep),
      out_slice_dim_get s e h1 h2 (i + 1) hstep]
    have hi1 : ((i : Int) + 1) < s := by
      rw [hlen] at hstep; omega
    push_cast
    split_ifs with hA hB hB
    · ring
    · exfalso; omega
    · have hre : e % s = (i : Int) + 1 := by omega
      rw [hre]; ring
    · ring
  have hhead : ((out_slice_dim s e).headD (0, 0)).1 = 0 := by
    rw [headD_eq_get _ hpos, out_slice_dim_get s e h1 h2 0 hpos]
    split_ifs with hc
    · simp
    · simp only [Nat.cast_zero]
      omega
  refine ⟨hlen, ⟨hne, hhead, hcont, ?_⟩, ?_⟩
  · rw [slices_len_sum_contiguous _ hcont hne, hhead]
    have hlast : (out_slice_dim s e).getLast hne =
        (out_slice_dim s e).get ⟨(out_slice_dim s e).length - 1, by omega⟩ :=
      List.getLast_eq_get _ hne
    rw [hlast, out_slice_dim_get s e h1 h2 _ (by omega)]
    have hcast : (((out_slice_dim s e).length - 1 : Nat) : Int) = s - 1 := by
      rw [hlen]; omega
    rw [hcast]
    have hcond : ¬ (e % s > s - 1) := by omega
    rw [if_neg hcond, if_neg hcond]
    dsimp only
    linear_combination hq2
  · intro i hi
    rw [out_slice_dim_get s e h1 h2 i hi]

/-- C3: For every extent `e ≥ 1` and section count `1 ≤ s ≤ e`, the claim
that `get_out_slice_info` evenly partitions `[0,e)` into `s` contiguous
pieces with the LAST piece absorbing the remainder is FALSE: at extent 10
and 3 sections the code produces pieces of lengths `[4, 3, 3]` — the first
piece absorbs part of the remainder, so a non-last piece does not have the
even length `10 / 3 = 3`. -/
theorem claim_C3_cex :
    (1 : Int) ≤ 3 ∧ (3 : Int) ≤ 10 ∧
      ¬ last_piece_absorbs_remainder ((get_out_slice_info ⟨3, 1⟩ 10 1).n) 10 3 := by
  refine ⟨by norm_num, by norm_num, ?_⟩
  intro h
  have := h.2.2 0 (by decide) (by decide)
  revert this
  decide

/-- C3 (amended): for every extent `e ≥ 1` and section count `1 ≤ s ≤ e`,
`get_out_slice_info` divides `[0,e)` into exactly `s` contiguous pieces that
partition it exactly; piece `i` has length `e / s + 1` when `i < e % s` and
length `e / s` otherwise, i.e. the FIRST `e % s` pieces (not the last piece)
absorb the remainder, on both the n and the h dimension. -/
theorem claim_C3_amended (ss : shape_secs_t) (n h : Int)
    (hn1 : 1 ≤ ss.nsecs) (hn2 : ss.nsecs ≤ n)
    (hh1 : 1 ≤ ss.hsecs) (hh2 : ss.hsecs ≤ h) :
    first_pieces_absorb_remainder ((get_out_slice_info ss n h).n) n ss.nsecs ∧
    first_pieces_absorb_remainder ((get_out_slice_info ss n h).h) h ss.hsecs :=
  ⟨out_slice_dim_partition ss.nsecs n hn1 hn2,
   out_slice_dim_partition ss.hsecs h hh1 hh2⟩

/-- Witness for C3 (amended) at `ss = {nsecs := 3, hsecs := 2}`, `n = 10`,
`h = 4`: the hypotheses hold and the produced n-dimension pieces are
`[(0,4), (4,3), (7,3)]`, the h-dimension pieces `[(0,2), (2,2)]`. -/
theorem claim_C3_witness :
    ((1 : Int) ≤ 3 ∧ (3 : Int) ≤ 10 ∧ (1 : Int) ≤ 2 ∧ (2 : Int) ≤ 4) ∧
      (first_pieces_absorb_remainder ((get_out_slice_info ⟨3, 2⟩ 10 4).n) 10 3 ∧
       first_pieces_absorb_remainder ((get_out_slice_info ⟨3, 2⟩ 10 4).h) 4 2) :=
  ⟨⟨by norm_num, by norm_num, by norm_num, by norm_num⟩,
   claim_C3_amended ⟨3, 2⟩ 10 4 (by norm_num) (by norm_num) (by norm_num)
     (by norm_num)⟩

/-! ## Buffer/time-step accountant (`get_split_max_secs`) -/

/-- Modelled from the spec: one entry of the time-step object's
`lmem_buffer` map — a live buffer `{start_ts, end_ts, size}` (the
"Live buffer" record of the data model; the `BasicTimeStep` class itself is
outside the available sources, `get_split_max_secs` only reads
`get_timestep_num()` and `get_lmem_buffer()` from it). -/
structure mem_buffer_value where
  start_ts : Int
  end_ts : Int
  size : Int
  deriving DecidableEq, Repr

/-- One `for (ts = lo; ts <= hi; ++ts) lmem_req[ts] += v` loop of
`update_lmem_req` (LayerGroupUtil.cpp:108-123), iterating `k` more steps
starting at index `ts`; an out-of-range `lmem_req[ts]` access is modelled as
`none`. -/
def add_range_go (v : Int) : Nat → Int → List Int → Option (List Int)
  | 0, _, r => some r
  | Nat.succ k, ts, r =>
    if h : 0 ≤ ts ∧ ts.toNat < r.length then
      add_range_go v k (ts + 1) (r.set ts.toNat (r.get ⟨ts.toNat, h.2⟩ + v))
    else none

/-- The loop `for (ts = lo; ts <= hi; ++ts) lmem_req[ts] += v`: it runs
`hi + 1 - lo` iterations (none when `lo > hi`). -/
def add_range (req : List Int) (lo hi v : Int) : Option (List Int) :=
  add_range_go v (hi + 1 - lo).toNat lo req

/-- The `update_lmem_req` lambda of `get_split_max_secs`
(LayerGroupUtil.cpp:108-123): contiguous add for `start_ts ≤ end_ts`,
otherwise the wrapping pair of adds over `[0, end_ts]` and
`[start_ts, timestep_num - 1]`. -/
def update_lmem_req (timestep_num : Int) (req : List Int)
    (start_ts end_ts lmem_size : Int) : Option (List Int) :=
  if start_ts ≤ end_ts then
    add_range req start_ts end_ts lmem_size
  else
    match add_range req 0 end_ts lmem_size with
    | none => none
    | some r => add_range r start_ts (timestep_num - 1) lmem_size

/-- `get_split_max_secs` (LayerGroupUtil.cpp:103-133): build the
per-time-step demand array, add every buffer's interval, stable-sort the
array descending and return the ceiling-divided peak `lmem_req[0]`.  The
unconditional `lmem_req[0]` read of the sorted array is modelled as `none`
when the array is empty. -/
def get_split_max_secs (timestep_num : Int)
    (lmem_buffer : List mem_buffer_value) (lmem_bytes : Int) : Option Int :=
  let req0 : List Int := List.replicate timestep_num.toNat 0
  match lmem_buffer.foldlM
      (fun r b => update_lmem_req timestep_num r b.start_ts b.end_ts b.size)
      req0 with
  | none => none
  | some req =>
    match req.mergeSort (fun a b => decide (b ≤ a)) with
    | [] => none
    | x :: _ => some (ceiling_func x lmem_bytes)

/-- Claim C5's liveness of a buffer at a step: contiguous interval when
`start_ts ≤ end_ts`, the wrapped pair of intervals otherwise. -/
def buffer_live (timestep_num : Int) (b : mem_buffer_value) (ts : Int) : Bool :=
  if b.start_ts ≤ b.end_ts then decide (b.start_ts ≤ ts ∧ ts ≤ b.end_ts)
  else decide ((0 ≤ ts ∧ ts ≤ b.end_ts) ∨
    (b.start_ts ≤ ts ∧ ts ≤ timestep_num - 1))

/-- Summed sizes of the buffers live at one step. -/
def step_demand (timestep_num : Int) (buffers : List mem_buffer_value)
    (ts : Int) : Int :=
  (buffers.map (fun b => if buffer_live timestep_num b ts then b.size else 0)).sum

/-- The peak over all steps `0 ≤ ts < timestep_num` of the summed live
sizes. -/
def peak_demand (timestep_num : Int) (buffers : List mem_buffer_value) : Int :=
  ((List.range timestep_num.toNat).map
    (fun (ts : Nat) => step_demand timestep_num buffers (ts : Int))).foldl max 0

lemma add_range_go_length : ∀ (k : Nat) (ts : Int) (r r' : List Int),
    add_range_go v k ts r = some r' → r'.length = r.length
  | 0, ts, r, r' => by
    intro h
    simp only [add_range_go] at h
    cases h
    rfl
  | Nat.succ k, ts, r, r' => by
    intro h
    simp only [add_range_go] at h
    split at h
    · have := add_range_go_length k (ts + 1) _ r' h
      simpa using this
    · cases h

lemma add_range_go_some (v : Int) : ∀ (k : Nat) (ts : Int) (r : List Int),
    0 ≤ ts → ts + (k : Int) ≤ (r.length : Int) →
    ∃ r', add_range_go v k ts r = some r' ∧ r'.length = r.length ∧
      ∀ j : Nat, j < r.length →
        r'.getD j 0 = r.getD j 0 +
          (if ts ≤ (j : Int) ∧ (j : Int) < ts + (k : Int) then v else 0)
  | 0, ts, r => by
    intro h0 hk
    refine ⟨r, rfl, rfl, ?_⟩
    intro j hj
    have : ¬ (ts ≤ (j : Int) ∧ (j : Int) < ts + ((0 : Nat) : Int)) := by
      push_cast
      omega
    rw [if_neg this]
    omega
  | Nat.succ k, ts, r => by
    intro h0 hk
    have hts : ts.toNat < r.length := by omega
    have hcond : 0 ≤ ts ∧ ts.toNat < r.length := ⟨h0, hts⟩
    set r1 := r.set ts.toNat (r.get ⟨ts.toNat, hts⟩ + v) with hr1
    have hlen1 : r1.length = r.length := by simp [hr1]
    obtain ⟨r', hgo, hlen, hval⟩ :=
      add_range_go_some v k (ts + 1) r1 (by omega) (by push_cast; omega)
    refine ⟨r', ?_, by omega, ?_⟩
    · simp only [add_range_go, dif_pos hcond]
      exact hgo
    · intro j hj
      have hval2 := hval j (by omega)
      have hset : r1.getD j 0 = r.getD j 0 + (if j = ts.toNat then v else 0) := by
        rw [hr1, List.getD_eq_getElem _ _ (by simp only [List.length_set]; omega),
          List.getD_eq_getElem _ _ (by omega)]
        by_cases hje : j = ts.toNat
        · subst hje
          simp [List.getElem_set]
          rw [List.getElem?_eq_getElem hj]
          rfl
        · simp [List.getElem_set, Ne.symm hje, hje]
          rw [List.getElem?_eq_getElem hj]
          rfl
      rw [hval2, hset]
      by_cases hj1 : j = ts.toNat
      · subst hj1
        have c1 : ts ≤ ((ts.toNat : Nat) : Int) ∧ ((ts.toNat : Nat) : Int) <
            ts + ((Nat.succ k : Nat) : Int) := by push_cast; omega
        have c2 : ¬ (ts + 1 ≤ ((ts.toNat : Nat) : Int) ∧ ((ts.toNat : Nat) : Int) <
            ts + 1 + (k : Int)) := by push_cast; omega
        rw [if_pos c1, if_neg c2]
        omega
      · have hsplit : (if ts + 1 ≤ (j : Int) ∧ (j : Int) < ts + 1 + (k : Int)
            then v else 0) =
            (if ts ≤ (j : Int) ∧ (j : Int) < ts + ((Nat.succ k : Nat) : Int)
            then v else 0) := by
          have hne : (j : Int) ≠ ts := by omega
          by_cases hc : ts + 1 ≤ (j : Int) ∧ (j : Int) < ts + 1 + (k : Int)
          · rw [if_pos hc, if_pos (by push_cast; omega)]
          · rw [if_neg hc, if_neg (by push_cast; omega)]
        rw [if_neg hj1, hsplit]
        omega

lemma add_range_some (req : List Int) (lo hi v : Int) (hlo : 0 ≤ lo)
    (hhi : hi < (req.length : Int)) :
    ∃ r', add_range req lo hi v = some r' ∧ r'.length = req.length ∧
      ∀ j : Nat, j < req.length →
        r'.getD j 0 = req.getD j 0 +
          (if lo ≤ (j : Int) ∧ (j : Int) ≤ hi then v else 0) := by
  rcases le_or_lt lo hi with hle | hlt
  · obtain ⟨r', h1, h2, h3⟩ :=
      add_range_go_some v (hi + 1 - lo).toNat lo req hlo (by omega)
    refine ⟨r', h1, h2, ?_⟩
    intro j hj
    rw [h3 j hj]
    by_cases hc : lo ≤ (j : Int) ∧ (j : Int) ≤ hi
    · rw [if_pos hc, if_pos (by omega)]
    · rw [if_neg hc, if_neg (by omega)]
  · have hk : (hi + 1 - lo).toNat = 0 := by omega
    refine ⟨req, ?_, rfl, ?_⟩
    · rw [add_range, hk]
      rfl
    · intro j hj
      rw [if_neg (by omega)]
      omega

lemma update_lmem_req_some (T : Int) (req : List Int) (b : mem_buffer_value)
    (hlen : (req.length : Int) = T)
    (hb : 0 ≤ b.start_ts ∧ b.start_ts < T ∧ 0 ≤ b.end_ts ∧ b.end_ts < T) :
    ∃ r', update_lmem_req T req b.start_ts b.end_ts b.size = some r' ∧
      r'.length = req.length ∧
      ∀ j : Nat, j < req.length →
        r'.getD j 0 = req.getD j 0 +
          (if buffer_live T b (j : Int) then b.size else 0) := by
  obtain ⟨hb1, hb2, hb3, hb4⟩ := hb
  by_cases hse : b.start_ts ≤ b.end_ts
  · obtain ⟨r', h1, h2, h3⟩ :=
      add_range_some req b.start_ts b.end_ts b.size hb1 (by omega)
    refine ⟨r', ?_, h2, ?_⟩
    · rw [update_lmem_req, if_pos hse]
      exact h1
    · intro j hj
      have hlive : (buffer_live T b (j : Int) = true) ↔
          (b.start_ts ≤ (j : Int) ∧ (j : Int) ≤ b.end_ts) := by
        rw [buffer_live, if_pos hse]
        simp
      rw [h3 j hj]
      simp only [hlive]
  · obtain ⟨r1, h1, h2, h3⟩ := add_range_some req 0 b.end_ts b.size le_rfl (by omega)
    obtain ⟨r2, g1, g2, g3⟩ :=
      add_range_some r1 b.start_ts (T - 1) b.size hb1 (by omega)
    refine ⟨r2, ?_, by omega, ?_⟩
    · rw [update_lmem_req, if_neg hse, h1]
      exact g1
    · intro j hj
      have hlive : (buffer_live T b (j : Int) = true) ↔
          ((0 ≤ (j : Int) ∧ (j : Int) ≤ b.end_ts) ∨
           (b.start_ts ≤ (j : Int) ∧ (j : Int) ≤ T - 1)) := by
        rw [buffer_live, if_neg hse]
        simp
      rw [g3 j (by omega), h3 j hj]
      simp only [hlive]
      split_ifs with d1 d2 d3 d3 <;> omega

lemma fold_lmem_req (T : Int) : ∀ (bs : List mem_buffer_value) (r : List Int),
    (r.length : Int) = T →
    (∀ b ∈ bs, 0 ≤ b.start_ts ∧ b.start_ts < T ∧ 0 ≤ b.end_ts ∧ b.end_ts < T) →
    ∃ r', bs.foldlM
        (fun r b => update_lmem_req T r b.start_ts b.end_ts b.size) r = some r' ∧
      r'.length = r.length ∧
      ∀ j : Nat, j < r.length →
        r'.getD j 0 = r.getD j 0 + step_demand T bs (j : Int)
  | [], r => by
    intro hlen hb
    refine ⟨r, rfl, rfl, ?_⟩
    intro j hj
    simp [step_demand]
  | b :: bs, r => by
    intro hlen hb
    obtain ⟨r1, h1, h2, h3⟩ := update_lmem_req_some T r b hlen (hb b (by simp))
    obtain ⟨r', g1, g2, g3⟩ :=
      fold_lmem_req T bs r1 (by omega) (fun x hx => hb x (by simp [hx]))
    refine ⟨r', ?_, by omega, ?_⟩
    · rw [List.foldlM_cons, h1]
      exact g1
    · intro j hj
      rw [g3 j (by omega), h3 j hj]
      have hdem : step_demand T (b :: bs) (j : Int) =
          (if buffer_live T b (j : Int) then b.size else 0) +
            step_demand T bs (j : Int) := by
        simp [step_demand]
      rw [hdem]
      omega

lemma mergeSort_desc_head_max (l : List Int) (y : Int) (tail : List Int)
    (hsort : l.mergeSort (fun a b => decide (b ≤ a)) = y :: tail) :
    (∀ z ∈ l, z ≤ y) ∧ y ∈ l := by
  have hperm := List.mergeSort_perm l (fun a b => decide (b ≤ a))
  have hpw := @List.sorted_mergeSort Int (fun a b => decide (b ≤ a))
    (fun a b c hab hbc => by simp only [decide_eq_true_eq] at *; omega)
    (fun a b => by simp [le_total]) l
  rw [hsort] at hperm hpw
  constructor
  · intro z hz
    have hz2 : z ∈ y :: tail := hperm.mem_iff.mpr hz
    rcases List.mem_cons.mp hz2 with h | h
    · omega
    · have := List.rel_of_pairwise_cons hpw h
      simp only [decide_eq_true_eq] at this
      exact this
  · exact hperm.mem_iff.mp (List.mem_cons_self y tail)

lemma foldl_max_init : ∀ (l : List Int) (a : Int), a ≤ l.foldl max a
  | [], a => le_rfl
  | x :: xs, a => le_trans (le_max_left a x) (foldl_max_init xs (max a x))

lemma foldl_max_mem : ∀ (l : List Int) (a x : Int), x ∈ l → x ≤ l.foldl max a
  | [], _, _, h => absurd h (List.not_mem_nil _)
  | y :: ys, a, x, h => by
    rcases List.mem_cons.mp h with rfl | h2
    · exact le_trans (le_max_right a x) (foldl_max_init ys _)
    · exact foldl_max_mem ys (max a y) x h2

lemma foldl_max_cases : ∀ (l : List Int) (a : Int),
    l.foldl max a = a ∨ l.foldl max a ∈ l
  | [], a => Or.inl rfl
  | y :: ys, a => by
    rcases foldl_max_cases ys (max a y) with h | h
    · rcases max_choice a y with h2 | h2
      · exact Or.inl (by rw [List.foldl_cons, h, h2])
      · refine Or.inr ?_
        rw [List.foldl_cons, h, h2]
        exact List.mem_cons_self y ys
    · exact Or.inr (List.mem_cons_of_mem _ h)

lemma step_demand_nonneg (T : Int) (buffers : List mem_buffer_value) (ts : Int)
    (hsz : ∀ b ∈ buffers, 0 ≤ b.size) : 0 ≤ step_demand T buffers ts := by
  apply List.sum_nonneg
  intro x hx
  obtain ⟨b, hb, rfl⟩ := List.mem_map.mp hx
  split_ifs
  · exact hsz b hb
  · exact le_rfl

/-- C5: for `T ≥ 1` time steps and buffers whose interval endpoints lie in
`[0, T)`, `get_split_max_secs` returns exactly the ceiling-divided peak
demand, where a buffer with `start_ts ≤ end_ts` contributes its size to
every step of `[start_ts, end_ts]` and a wrapping buffer
(`start_ts > end_ts`) to every step of `[0, end_ts]` and of
`[start_ts, T-1]`. -/
theorem claim_C5_accountant (T : Int) (buffers : List mem_buffer_value)
    (lmem_bytes : Int) (hT : 1 ≤ T)
    (hb : ∀ b ∈ buffers,
      0 ≤ b.start_ts ∧ b.start_ts < T ∧ 0 ≤ b.end_ts ∧ b.end_ts < T)
    (hsz : ∀ b ∈ buffers, 0 ≤ b.size) :
    get_split_max_secs T buffers lmem_bytes =
      some (ceiling_func (peak_demand T buffers) lmem_bytes) := by
  have hlen0 : (((List.replicate T.toNat (0 : Int)).length : Nat) : Int) = T := by
    simp only [List.length_replicate]
    omega
  obtain ⟨req, h1, h2, h3⟩ := fold_lmem_req T buffers _ hlen0 hb
  have hlen : (req.length : Int) = T := by
    rw [h2] at *
    exact hlen0
  have hreq : ∀ j : Nat, j < req.length →
      req.getD j 0 = step_demand T buffers (j : Int) := by
    intro j hj
    have hz : (List.replicate T.toNat (0 : Int)).getD j 0 = 0 := by
      rcases Nat.lt_or_ge j T.toNat with hlt | hge
      · rw [List.getD_eq_getElem _ _ (by simpa using hlt)]
        simp
      · rw [List.getD_eq_default _ _ (by simpa using hge)]
    have := h3 j (by omega)
    rw [hz] at this
    simpa using this
  simp only [get_split_max_secs, h1]
  cases hms : req.mergeSort (fun a b => decide (b ≤ a)) with
  | nil =>
    exfalso
    have hperm := List.mergeSort_perm req (fun a b => decide (b ≤ a))
    rw [hms] at hperm
    have := hperm.length_eq
    simp at this
    omega
  | cons x tail =>
    obtain ⟨hmax, hmem⟩ := mergeSort_desc_head_max req x tail hms
    obtain ⟨j, hjlt, hjx⟩ := List.mem_iff_getElem.mp hmem
    have hxd : x = step_demand T buffers (j : Int) := by
      rw [← hjx, ← List.getD_eq_getElem _ _ hjlt]
      exact hreq j hjlt
    have hple : peak_demand T buffers ≤ x := by
      rw [peak_demand]
      rcases foldl_max_cases ((List.range T.toNat).map
          (fun (ts : Nat) => step_demand T buffers (ts : Int))) 0 with hc | hc
      · rw [hc, hxd]
        exact step_demand_nonneg T buffers _ hsz
      · obtain ⟨ts, hts, heq⟩ := List.mem_map.mp hc
        rw [← heq]
        have htlt : ts < req.length := by
          rw [List.mem_range] at hts
          omega
        have : step_demand T buffers (ts : Int) = req.getD ts 0 :=
          (hreq ts htlt).symm
        rw [this, List.getD_eq_getElem _ _ htlt]
        exact hmax _ (List.getElem_mem htlt)
    have hpge : x ≤ peak_demand T buffers := by
      rw [hxd, peak_demand]
      apply foldl_max_mem
      apply List.mem_map.mpr
      refine ⟨j, ?_, rfl⟩
      rw [List.mem_range]
      omega
    have : x = peak_demand T buffers := le_antisymm hpge hple
    rw [this]

lemma update_lmem_req_length (T : Int) (r r' : List Int) (a b s : Int)
    (h : update_lmem_req T r a b s = some r') : r'.length = r.length := by
  rw [update_lmem_req] at h
  split at h
  · exact add_range_go_length _ _ _ _ h
  · cases hm : add_range r 0 b s with
    | none => rw [hm] at h; cases h
    | some r1 =>
      rw [hm] at h
      have e1 : r1.length = r.length := add_range_go_length _ _ _ _ hm
      have e2 : r'.length = r1.length := add_range_go_length _ _ _ _ h
      omega

lemma fold_lmem_req_length (T : Int) : ∀ (bs : List mem_buffer_value) (r r' : List Int),
    bs.foldlM (fun r b => update_lmem_req T r b.start_ts b.end_ts b.size) r =
      some r' → r'.length = r.length
  | [], r, r' => by
    intro h
    simp only [List.foldlM_nil] at h
    cases h
    rfl
  | b :: bs, r, r' => by
    intro h
    rw [List.foldlM_cons] at h
    cases hu : update_lmem_req T r b.start_ts b.end_ts b.size with
    | none => rw [hu] at h; cases h
    | some r1 =>
      rw [hu] at h
      have e1 : r1.length = r.length := update_lmem_req_length T r r1 _ _ _ hu
      have e2 : r'.length = r1.length := fold_lmem_req_length T bs r1 r' h
      omega

/-- C9: `get_split_max_secs` unconditionally reads element 0 of the sorted
demand array, so it needs at least one time step: with `T ≤ 0` the embedded
accountant reports the out-of-bounds read (`none`); with `T ≥ 1` and every
buffer's `start_ts` and `end_ts` within `[0, T)` all array accesses are in
bounds and a result is produced. -/
theorem claim_C9_accountant_safety (T : Int) (buffers : List mem_buffer_value)
    (lmem_bytes : Int) :
    (T ≤ 0 → get_split_max_secs T buffers lmem_bytes = none) ∧
    (1 ≤ T →
      (∀ b ∈ buffers,
        0 ≤ b.start_ts ∧ b.start_ts < T ∧ 0 ≤ b.end_ts ∧ b.end_ts < T) →
      ∃ v, get_split_max_secs T buffers lmem_bytes = some v) := by
  constructor
  · intro hT
    have hrep : List.replicate T.toNat (0 : Int) = [] := by
      have : T.toNat = 0 := by omega
      rw [this]
      rfl
    rw [get_split_max_secs, hrep]
    cases hf : buffers.foldlM
        (fun r b => update_lmem_req T r b.start_ts b.end_ts b.size) [] with
    | none => rfl
    | some req =>
      have : req.length = 0 := by
        simpa using fold_lmem_req_length T buffers [] req hf
      have hnil : req = [] := List.length_eq_zero.mp this
      subst hnil
      have hms : ([] : List Int).mergeSort (fun a b => decide (b ≤ a)) = [] :=
        (List.mergeSort_perm [] (fun a b => decide (b ≤ a))).eq_nil
      show (match ([] : List Int).mergeSort (fun a b => decide (b ≤ a)) with
        | [] => none
        | x :: _ => some (ceiling_func x lmem_bytes)) = none
      rw [hms]
  · intro hT hb
    have hlen0 : (((List.replicate T.toNat (0 : Int)).length : Nat) : Int) = T := by
      simp only [List.length_replicate]
      omega
    obtain ⟨req, h1, h2, _⟩ := fold_lmem_req T buffers _ hlen0 hb
    simp only [get_split_max_secs, h1]
    cases hms : req.mergeSort (fun a b => decide (b ≤ a)) with
    | nil =>
      exfalso
      have hperm := List.mergeSort_perm req (fun a b => decide (b ≤ a))
      rw [hms] at hperm
      have := hperm.length_eq
      simp at this
      omega
    | cons x tail => exact ⟨ceiling_func x lmem_bytes, rfl⟩

/-- Witness for C5 at `T = 3` with a contiguous buffer `[0,1]` of size 5 and
a wrapping buffer `[2,0]` of size 3: the demands are `[8, 5, 3]`, the peak
is 8, and with capacity 4 the result is `ceiling(8/4) = 2`. -/
theorem claim_C5_witness :
    ((1 : Int) ≤ 3 ∧
      (∀ b ∈ [mem_buffer_value.mk 0 1 5, mem_buffer_value.mk 2 0 3],
        0 ≤ b.start_ts ∧ b.start_ts < 3 ∧ 0 ≤ b.end_ts ∧ b.end_ts < 3) ∧
      (∀ b ∈ [mem_buffer_value.mk 0 1 5, mem_buffer_value.mk 2 0 3],
        0 ≤ b.size)) ∧
    get_split_max_secs 3 [mem_buffer_value.mk 0 1 5, mem_buffer_value.mk 2 0 3] 4 =
      some (ceiling_func
        (peak_demand 3 [mem_buffer_value.mk 0 1 5, mem_buffer_value.mk 2 0 3]) 4) :=
  ⟨⟨by norm_num, by decide, by decide⟩,
   claim_C5_accountant 3 _ 4 (by norm_num) (by decide) (by decide)⟩

/-- Witness for C9: at `T = 0` the accountant reports the out-of-bounds
read, and at `T = 2` with one wrapping buffer all accesses are in bounds. -/
theorem claim_C9_witness :
    (get_split_max_secs 0 [mem_buffer_value.mk 1 0 7] 4 = none) ∧
    ((1 : Int) ≤ 2 ∧
      ∃ v, get_split_max_secs 2 [mem_buffer_value.mk 1 0 7] 4 = some v) :=
  ⟨(claim_C9_accountant_safety 0 [mem_buffer_value.mk 1 0 7] 4).1 (by norm_num),
   ⟨by norm_num,
    (claim_C9_accountant_safety 2 [mem_buffer_value.mk 1 0 7] 4).2 (by norm_num)
      (by decide)⟩⟩

/-! ## Split-search driver (`update_data_split`) -/

/-- The loop of `update_data_split` (LayerGroupUtil.cpp:162-188).  The two
callees are abstracted as interfaces: `prop ss` stands for
`stripe_mine_max_slice` (followed by `update_all_mem_buffer_size`) at
candidate `ss`, `secs ss` for `get_split_max_secs` on the time-step state it
produced.  Besides the status and the final `shape_secs` (a by-reference
out-parameter in C++), the model also returns the trace of candidate
`shape_secs` values at which the propagator was invoked, so that theorems
can speak about the candidates the search examined; `fuel` bounds the
remaining loop iterations (the C++ loop runs at most `maxn` of them). -/
def update_data_split_go (maxn maxh : Int) (prop : shape_secs_t → Bool)
    (secs : shape_secs_t → Int) :
    Nat → Int → shape_secs_t → Bool × shape_secs_t × List shape_secs_t
  | 0, _, ss => (false, ss, [])
  | fuel + 1, nsec, ss =>
    if nsec > maxn then (false, ss, [])
    else
      let ss1 : shape_secs_t := { ss with nsecs := nsec }
      if prop ss1 = false then (false, ss1, [ss1])
      else
        let total := secs ss1
        let ns := max nsec (min maxn total)
        let hs := ceiling_func total ns
        let ss2 : shape_secs_t := { nsecs := ns, hsecs := hs }
        if hs ≤ maxh then (true, ss2, [ss1])
        else
          let r := update_data_split_go maxn maxh prop secs fuel (nsec + 1) ss2
          (r.1, r.2.1, ss1 :: r.2.2)

/-- `update_data_split` (LayerGroupUtil.cpp:162-188): reset the candidate to
`{1, 1}` and run the loop `for (nsec = 1; nsec <= maxn; ++nsec)`; `maxn` and
`maxh` are the components of `get_group_max_secs`. -/
def update_data_split (maxn maxh : Int) (prop : shape_secs_t → Bool)
    (secs : shape_secs_t → Int) : Bool × shape_secs_t × List shape_secs_t :=
  update_data_split_go maxn maxh prop secs (maxn.toNat + 1) 1 ⟨1, 1⟩

/-- C6: if the bounding-mode propagator fails at the current candidate
(`nsec` within its bound), `update_data_split` returns failure right there:
status `false`, the failing candidate as final state, and no further
candidate examined (the trace of propagator invocations stops at the
failing candidate). -/
theorem claim_C6_fail_no_retry (maxn maxh : Int) (prop : shape_secs_t → Bool)
    (secs : shape_secs_t → Int) (fuel : Nat) (nsec : Int) (ss : shape_secs_t)
    (hn : nsec ≤ maxn) (hfail : prop { ss with nsecs := nsec } = false) :
    update_data_split_go maxn maxh prop secs (fuel + 1) nsec ss =
      (false, { ss with nsecs := nsec }, [{ ss with nsecs := nsec }]) := by
  rw [update_data_split_go, if_neg (by omega), if_pos hfail]

/-- Witness for C6: with `maxn = 3` and a propagator that rejects every
candidate whose n-section count is not 1, the driver invoked at candidate 2
fails immediately. -/
theorem claim_C6_witness :
    ((2 : Int) ≤ 3 ∧
      (fun ss : shape_secs_t => decide (ss.nsecs = 1))
        { shape_secs_t.mk 9 5 with nsecs := 2 } = false) ∧
    update_data_split_go 3 1 (fun ss => decide (ss.nsecs = 1)) (fun _ => 1)
        1 2 (shape_secs_t.mk 9 5) =
      (false, { shape_secs_t.mk 9 5 with nsecs := 2 },
        [{ shape_secs_t.mk 9 5 with nsecs := 2 }]) :=
  ⟨⟨by norm_num, by decide⟩,
   claim_C6_fail_no_retry 3 1 (fun ss => decide (ss.nsecs = 1)) (fun _ => 1)
     0 2 (shape_secs_t.mk 9 5) (by norm_num) (by decide)⟩

lemma ceiling_func_pos (a b : Int) (ha : 1 ≤ a) (hb : 1 ≤ b) :
    1 ≤ ceiling_func a b := by
  rw [ceiling_func]
  rw [Int.le_ediv_iff_mul_le (by omega)]
  omega

lemma update_data_split_go_inv (maxn maxh : Int) (prop : shape_secs_t → Bool)
    (secs : shape_secs_t → Int) (hsec : ∀ ss, 1 ≤ secs ss) :
    ∀ (fuel : Nat) (nsec : Int) (ss : shape_secs_t), 1 ≤ nsec →
      1 ≤ ss.nsecs → 1 ≤ ss.hsecs →
      (∀ t ∈ (update_data_split_go maxn maxh prop secs fuel nsec ss).2.2,
          nsec ≤ t.nsecs ∧ 1 ≤ t.nsecs ∧ 1 ≤ t.hsecs) ∧
      List.Chain' (fun a b => a.nsecs < b.nsecs)
        (update_data_split_go maxn maxh prop secs fuel nsec ss).2.2 ∧
      1 ≤ (update_data_split_go maxn maxh prop secs fuel nsec ss).2.1.nsecs ∧
      1 ≤ (update_data_split_go maxn maxh prop secs fuel nsec ss).2.1.hsecs := by
  intro fuel
  induction fuel with
  | zero =>
    intro nsec ss h1 h2 h3
    simp only [update_data_split_go]
    exact ⟨by simp, by simp, h2, h3⟩
  | succ f ih =>
    intro nsec ss h1 h2 h3
    rw [update_data_split_go]
    by_cases hgt : nsec > maxn
    · rw [if_pos hgt]
      exact ⟨by simp, by simp, h2, h3⟩
    rw [if_neg hgt]
    by_cases hfail : prop { ss with nsecs := nsec } = false
    · rw [if_pos hfail]
      refine ⟨?_, by simp, by simpa using h1, by simpa using h3⟩
      intro t ht
      simp only [List.mem_singleton] at ht
      subst ht
      exact ⟨le_refl _, h1, h3⟩
    rw [if_neg hfail]
    have htot : 1 ≤ secs { ss with nsecs := nsec } := hsec _
    have hns : 1 ≤ max nsec (min maxn (secs { ss with nsecs := nsec })) :=
      le_trans h1 (le_max_left _ _)
    have hhs : 1 ≤ ceiling_func (secs { ss with nsecs := nsec })
        (max nsec (min maxn (secs { ss with nsecs := nsec }))) :=
      ceiling_func_pos _ _ htot hns
    by_cases hok : ceiling_func (secs { ss with nsecs := nsec })
        (max nsec (min maxn (secs { ss with nsecs := nsec }))) ≤ maxh
    · rw [if_pos hok]
      refine ⟨?_, by simp, by simpa using hns, by simpa using hhs⟩
      intro t ht
      simp only [List.mem_singleton] at ht
      subst ht
      exact ⟨le_refl _, h1, h3⟩
    rw [if_neg hok]
    obtain ⟨iha, ihb, ihc, ihd⟩ := ih (nsec + 1)
      ⟨max nsec (min maxn (secs { ss with nsecs := nsec })),
       ceiling_func (secs { ss with nsecs := nsec })
         (max nsec (min maxn (secs { ss with nsecs := nsec })))⟩
      (by omega) (by simpa using hns) (by simpa using hhs)
    refine ⟨?_, ?_, by simpa using ihc, by simpa using ihd⟩
    · intro t ht
      simp only [List.mem_cons] at ht
      rcases ht with rfl | ht
      · exact ⟨le_refl _, h1, h3⟩
      · obtain ⟨ha, hb, hc⟩ := iha t ht
        exact ⟨by omega, hb, hc⟩
    · rw [List.chain'_cons']
      refine ⟨?_, ihb⟩
      intro hd hhd
      have hmem : hd ∈ (update_data_split_go maxn maxh prop secs f (nsec + 1)
          ⟨max nsec (min maxn (secs { ss with nsecs := nsec })),
           ceiling_func (secs { ss with nsecs := nsec })
             (max nsec (min maxn (secs { ss with nsecs := nsec })))⟩).2.2 :=
        List.mem_of_mem_head? hhd
      have := (iha hd hmem).1
      simp only
      omega

/-- C7: within one run of `update_data_split`, assuming the buffer
accountant always reports at least one required section, every candidate at
which the propagator is invoked has n-sections ≥ 1 and h-sections ≥ 1, the
candidate n-sections values strictly increase from each loop iteration to
the next, and the final split factors are both ≥ 1 as well. -/
theorem claim_C7_candidate_invariant (maxn maxh : Int)
    (prop : shape_secs_t → Bool) (secs : shape_secs_t → Int)
    (hsec : ∀ ss, 1 ≤ secs ss) :
    (∀ t ∈ (update_data_split maxn maxh prop secs).2.2,
        1 ≤ t.nsecs ∧ 1 ≤ t.hsecs) ∧
    List.Chain' (fun a b => a.nsecs < b.nsecs)
      (update_data_split maxn maxh prop secs).2.2 ∧
    1 ≤ (update_data_split maxn maxh prop secs).2.1.nsecs ∧
    1 ≤ (update_data_split maxn maxh prop secs).2.1.hsecs := by
  obtain ⟨ha, hb, hc, hd⟩ := update_data_split_go_inv maxn maxh prop secs hsec
    (maxn.toNat + 1) 1 ⟨1, 1⟩ (le_refl _) (le_refl _) (le_refl _)
  exact ⟨fun t ht => ⟨(ha t ht).2.1, (ha t ht).2.2⟩, hb, hc, hd⟩

/-- Witness for C7 with `maxn = 2`, `maxh = 3` and an accountant that always
answers 4: the search converges at the first candidate to `{2, 2}`. -/
theorem claim_C7_witness :
    (∀ ss : shape_secs_t, 1 ≤ (fun _ : shape_secs_t => (4 : Int)) ss) ∧
    ((∀ t ∈ (update_data_split 2 3 (fun _ => true) (fun _ => 4)).2.2,
        1 ≤ t.nsecs ∧ 1 ≤ t.hsecs) ∧
     List.Chain' (fun a b => a.nsecs < b.nsecs)
       (update_data_split 2 3 (fun _ => true) (fun _ => 4)).2.2 ∧
     1 ≤ (update_data_split 2 3 (fun _ => true) (fun _ => 4)).2.1.nsecs ∧
     1 ≤ (update_data_split 2 3 (fun _ => true) (fun _ => 4)).2.1.hsecs) :=
  ⟨fun ss => by norm_num,
   claim_C7_candidate_invariant 2 3 (fun _ => true) (fun _ => 4)
     (fun ss => by norm_num)⟩

/-! ## Group split-factor ceiling (`get_group_max_secs`) -/

/-- Abstraction of one output value of a group op, as observed by
`get_group_max_secs`: its `getNCDHW` batch extent `n` and height extent `h`,
its storage bit width, and whether the producing op's
`AllowDataSplit(2, type)` succeeds. -/
structure GOut where
  n : Int
  h : Int
  nbits : Int
  allow_h_split : Bool
  deriving DecidableEq, Repr

/-- Abstraction of one op of a group, as observed by `get_group_max_secs`:
the `getNCDHW` batch extents of operands 0 and 1, whether the op is one of
the symmetric binary kinds `Add/Sub/Mul/Div/Max/Min`, and its output
values. -/
structure GOp where
  n0 : Int
  n1 : Int
  sym_binary : Bool
  outs : List GOut
  deriving DecidableEq, Repr

/-- Seed of `max_nsecs` in `get_group_max_secs` (LayerGroupUtil.cpp:22-29):
the batch extent of the first op's operand 0, maxed with operand 1's batch
extent for the symmetric binary kinds. -/
def gms_seed : List GOp → Int
  | [] => 0
  | op0 :: _ => if op0.sym_binary then max op0.n0 op0.n1 else op0.n0

/-- `get_group_max_secs` (LayerGroupUtil.cpp:20-51), with the arch flag
`Arch::ALIGN_4N` passed as `align_4n` and `llvm::maxIntN(64)` embedded as
`2^63 - 1`.  When `align_4n` is false, `n_align` keeps its initial value 1;
when any op forbids height splitting, `max_hsecs` is assigned (not min-ed)
to 1, exactly as in the C++. -/
def get_group_max_secs (align_4n : Bool) (ops : List GOp) : shape_secs_t :=
  let init : shape_secs_t := { nsecs := gms_seed ops, hsecs := 2 ^ 63 - 1 }
  ops.foldl (fun acc op =>
    op.outs.foldl (fun acc o =>
      let n_align : Int := if align_4n then 32 / o.nbits else 1
      { nsecs := min acc.nsecs (ceiling_func o.n n_align)
        hsecs := if o.allow_h_split then min acc.hsecs o.h else 1 }) acc) init

/-- Scalar step of the n-component of `get_group_max_secs` on one output. -/
def nsecs_step (align_4n : Bool) (x : Int) (o : GOut) : Int :=
  min x (ceiling_func o.n (if align_4n then 32 / o.nbits else 1))

/-- Scalar step of the h-component of `get_group_max_secs` on one output. -/
def hsecs_step (x : Int) (o : GOut) : Int :=
  if o.allow_h_split then min x o.h else 1

lemma gms_outs_decomp (align_4n : Bool) :
    ∀ (outs : List GOut) (acc : shape_secs_t),
      outs.foldl (fun acc o =>
        let n_align : Int := if align_4n then 32 / o.nbits else 1
        { nsecs := min acc.nsecs (ceiling_func o.n n_align)
          hsecs := if o.allow_h_split then min acc.hsecs o.h else 1 }) acc =
      ⟨outs.foldl (nsecs_step align_4n) acc.nsecs,
       outs.foldl hsecs_step acc.hsecs⟩
  | [], acc => rfl
  | o :: outs, acc => by
    rw [List.foldl_cons, List.foldl_cons, List.foldl_cons,
      gms_outs_decomp align_4n outs]
    simp only [nsecs_step, hsecs_step]

lemma gms_ops_decomp (align_4n : Bool) :
    ∀ (ops : List GOp) (acc : shape_secs_t),
      ops.foldl (fun acc op =>
        op.outs.foldl (fun acc o =>
          let n_align : Int := if align_4n then 32 / o.nbits else 1
          { nsecs := min acc.nsecs (ceiling_func o.n n_align)
            hsecs := if o.allow_h_split then min acc.hsecs o.h else 1 }) acc) acc =
      ⟨ops.foldl (fun x op => op.outs.foldl (nsecs_step align_4n) x) acc.nsecs,
       ops.foldl (fun x op => op.outs.foldl hsecs_step x) acc.hsecs⟩
  | [], acc => rfl
  | op :: ops, acc => by
    rw [List.foldl_cons, List.foldl_cons, List.foldl_cons,
      gms_outs_decomp align_4n op.outs acc, gms_ops_decomp align_4n ops]

lemma nsecs_outs_fold_le (align_4n : Bool) :
    ∀ (outs : List GOut) (x : Int), outs.foldl (nsecs_step align_4n) x ≤ x
  | [], x => le_refl x
  | o :: outs, x =>
    le_trans (nsecs_outs_fold_le align_4n outs (nsecs_step align_4n x o))
      (min_le_left _ _)

lemma nsecs_ops_fold_le (align_4n : Bool) :
    ∀ (ops : List GOp) (x : Int),
      ops.foldl (fun x op => op.outs.foldl (nsecs_step align_4n) x) x ≤ x
  | [], x => le_refl x
  | op :: ops, x =>
    le_trans (nsecs_ops_fold_le align_4n ops _)
      (nsecs_outs_fold_le align_4n op.outs x)

lemma hsecs_outs_fold_mono :
    ∀ (outs : List GOut) (x y : Int), x ≤ y →
      outs.foldl hsecs_step x ≤ outs.foldl hsecs_step y
  | [], x, y, h => h
  | o :: outs, x, y, h => by
    refine hsecs_outs_fold_mono outs _ _ ?_
    rw [hsecs_step, hsecs_step]
    split_ifs
    · exact min_le_min h (le_refl _)
    · exact le_refl 1

lemma hsecs_ops_fold_mono :
    ∀ (ops : List GOp) (x y : Int), x ≤ y →
      ops.foldl (fun x op => op.outs.foldl hsecs_step x) x ≤
        ops.foldl (fun x op => op.outs.foldl hsecs_step x) y
  | [], x, y, h => h
  | op :: ops, x, y, h =>
    hsecs_ops_fold_mono ops _ _ (hsecs_outs_fold_mono op.outs x y h)

lemma hsecs_outs_fold_dec :
    ∀ (outs : List GOut) (x : Int), 1 ≤ x → (∀ o ∈ outs, 1 ≤ o.h) →
      outs.foldl hsecs_step x ≤ x ∧ 1 ≤ outs.foldl hsecs_step x
  | [], x, hx, _ => ⟨le_refl x, hx⟩
  | o :: outs, x, hx, hh => by
    have hstep1 : 1 ≤ hsecs_step x o := by
      rw [hsecs_step]
      split_ifs
      · exact le_min hx (hh o (by simp))
      · exact le_refl 1
    have hstep2 : hsecs_step x o ≤ x := by
      rw [hsecs_step]
      split_ifs
      · exact min_le_left _ _
      · exact hx
    obtain ⟨h1, h2⟩ := hsecs_outs_fold_dec outs (hsecs_step x o) hstep1
      (fun o2 ho2 => hh o2 (by simp [ho2]))
    exact ⟨le_trans h1 hstep2, h2⟩

lemma hsecs_ops_fold_dec :
    ∀ (ops : List GOp) (x : Int), 1 ≤ x →
      (∀ op ∈ ops, ∀ o ∈ op.outs, 1 ≤ o.h) →
      ops.foldl (fun x op => op.outs.foldl hsecs_step x) x ≤ x ∧
        1 ≤ ops.foldl (fun x op => op.outs.foldl hsecs_step x) x
  | [], x, hx, _ => ⟨le_refl x, hx⟩
  | op :: ops, x, hx, hh => by
    obtain ⟨h1, h2⟩ := hsecs_outs_fold_dec op.outs x hx (hh op (by simp))
    obtain ⟨g1, g2⟩ := hsecs_ops_fold_dec ops _ h2
      (fun op2 hop2 => hh op2 (by simp [hop2]))
    exact ⟨le_trans g1 h1, g2⟩

/-- C8: the claim that the merged group's ceiling is componentwise no
greater than the componentwise minimum of the two groups' ceilings is FALSE:
with a first group whose single op has batch extent 8 everywhere and a
second group whose single op has input batch extent 2 but output batch
extent 5, the merged ceiling's n-component is 5, but the second group's
n-ceiling is 2 (the merged group drops the second group's seed, the input
batch extent of its first op). -/
theorem claim_C8_cex :
    ¬ ((get_group_max_secs false
          ([GOp.mk 8 0 false [GOut.mk 8 1 32 false]] ++
           [GOp.mk 2 0 false [GOut.mk 5 1 32 false]])).nsecs ≤
        min (get_group_max_secs false [GOp.mk 8 0 false [GOut.mk 8 1 32 false]]).nsecs
          (get_group_max_secs false [GOp.mk 2 0 false [GOut.mk 5 1 32 false]]).nsecs ∧
       (get_group_max_secs false
          ([GOp.mk 8 0 false [GOut.mk 8 1 32 false]] ++
           [GOp.mk 2 0 false [GOut.mk 5 1 32 false]])).hsecs ≤
        min (get_group_max_secs false [GOp.mk 8 0 false [GOut.mk 8 1 32 false]]).hsecs
          (get_group_max_secs false [GOp.mk 2 0 false [GOut.mk 5 1 32 false]]).hsecs) := by
  intro h
  have := h.1
  revert this
  decide

/-- C8 (amended): merging two groups never raises the ceiling above the
FIRST group's ceiling (componentwise), and the h-component also never
exceeds the second group's h-ceiling; only the n-component of the second
group's ceiling can be exceeded, because the merged group no longer seeds
from the second group's first op's input batch extent.  (Height extents are
assumed positive, as for real tensors.) -/
theorem claim_C8_amended (align_4n : Bool) (ops1 ops2 : List GOp)
    (hne : ops1 ≠ [])
    (hh : ∀ op ∈ ops1 ++ ops2, ∀ o ∈ op.outs, 1 ≤ o.h) :
    (get_group_max_secs align_4n (ops1 ++ ops2)).nsecs ≤
      (get_group_max_secs align_4n ops1).nsecs ∧
    (get_group_max_secs align_4n (ops1 ++ ops2)).hsecs ≤
      (get_group_max_secs align_4n ops1).hsecs ∧
    (get_group_max_secs align_4n (ops1 ++ ops2)).hsecs ≤
      (get_group_max_secs align_4n ops2).hsecs := by
  obtain ⟨op0, rest, rfl⟩ : ∃ op0 rest, ops1 = op0 :: rest := by
    cases ops1 with
    | nil => exact absurd rfl hne
    | cons a l => exact ⟨a, l, rfl⟩
  have hh1 : ∀ op ∈ op0 :: rest, ∀ o ∈ op.outs, 1 ≤ o.h := by
    intro op hop
    refine hh op ?_
    rcases List.mem_cons.mp hop with rfl | h
    · exact List.mem_cons_self _ _
    · exact List.mem_cons_of_mem _ (List.mem_append_left _ h)
  have hh2 : ∀ op ∈ ops2, ∀ o ∈ op.outs, 1 ≤ o.h := by
    intro op hop
    exact hh op (List.mem_cons_of_mem _ (List.mem_append_right _ hop))
  have hM : (1 : Int) ≤ 2 ^ 63 - 1 := by norm_num
  rw [get_group_max_secs, get_group_max_secs, get_group_max_secs]
  simp only [List.cons_append]
  rw [gms_ops_decomp, gms_ops_decomp, gms_ops_decomp]
  simp only [List.foldl_cons, List.foldl_append]
  refine ⟨?_, ?_, ?_⟩
  · exact nsecs_ops_fold_le align_4n ops2 _
  · have hstart := (hsecs_outs_fold_dec op0.outs (2 ^ 63 - 1) hM
      (hh1 op0 (by simp))).2
    have hrest := hsecs_ops_fold_dec rest _ hstart
      (fun op hop => hh1 op (by simp [hop]))
    exact (hsecs_ops_fold_dec ops2 _ hrest.2 hh2).1
  · have hstart := hsecs_outs_fold_dec op0.outs (2 ^ 63 - 1) hM
      (hh1 op0 (by simp))
    have hrest := hsecs_ops_fold_dec rest _ hstart.2
      (fun op hop => hh1 op (by simp [hop]))
    exact hsecs_ops_fold_mono ops2 _ _ (le_trans hrest.1 hstart.1)

/-- Witness for C8 (amended) at the counterexample's two groups. -/
theorem claim_C8_witness :
    (([GOp.mk 8 0 false [GOut.mk 8 1 32 false]] : List GOp) ≠ [] ∧
      (∀ op ∈ ([GOp.mk 8 0 false [GOut.mk 8 1 32 false]] ++
          [GOp.mk 2 0 false [GOut.mk 5 1 32 false]]),
        ∀ o ∈ op.outs, 1 ≤ o.h)) ∧
    ((get_group_max_secs false
        ([GOp.mk 8 0 false [GOut.mk 8 1 32 false]] ++
         [GOp.mk 2 0 false [GOut.mk 5 1 32 false]])).nsecs ≤
      (get_group_max_secs false [GOp.mk 8 0 false [GOut.mk 8 1 32 false]]).nsecs ∧
     (get_group_max_secs false
        ([GOp.mk 8 0 false [GOut.mk 8 1 32 false]] ++
         [GOp.mk 2 0 false [GOut.mk 5 1 32 false]])).hsecs ≤
      (get_group_max_secs false [GOp.mk 8 0 false [GOut.mk 8 1 32 false]]).hsecs ∧
     (get_group_max_secs false
        ([GOp.mk 8 0 false [GOut.mk 8 1 32 false]] ++
         [GOp.mk 2 0 false [GOut.mk 5 1 32 false]])).hsecs ≤
      (get_group_max_secs false [GOp.mk 2 0 false [GOut.mk 5 1 32 false]]).hsecs) :=
  ⟨⟨by simp, by decide⟩,
   claim_C8_amended false [GOp.mk 8 0 false [GOut.mk 8 1 32 false]]
     [GOp.mk 2 0 false [GOut.mk 5 1 32 false]] (by simp) (by decide)⟩

/-! ## Backward slice propagation

The MLIR graph is embedded as an environment of integer handles: op handles
with their operand-value lists and per-op capability callbacks
(`BackwardN`/`BackwardH`, by-reference `in_idx`/`in_slice` out-parameters
become state threaded through the loop), and value handles with their
`getNCDHW` extents, `RankedTensorType` shape, defining op and users. -/

/-- The graph/interface environment seen by the backward propagator. -/
structure PropEnv where
  /-- `op->getOperands()` of an op handle (all operands, weights included). -/
  operands : Nat → List Nat
  /-- whether the op is one of `Add/Sub/Mul/Max/Min`
  (note: `Div` is absent from `is_broadcast_binary`'s list). -/
  bcast_kind : Nat → Bool
  /-- `BackwardN` of the op: current `(in_idx, in_slice)` plus
  `(out_idx, out_slice)` give `(succeeded, in_idx, in_slice)`. -/
  bwN : Nat → Int → Int → Int → Int → Bool × Int × Int
  /-- `BackwardH` of the op, same shape as `bwN`. -/
  bwH : Nat → Int → Int → Int → Int → Bool × Int × Int
  /-- `RankedTensorType` shape of a value handle. -/
  shape : Nat → List Int
  /-- `getNCDHW` batch extent of a value. -/
  valN : Nat → Int
  /-- `getNCDHW` height extent of a value. -/
  valH : Nat → Int
  /-- defining op of a value (queried only for non-group-input values). -/
  producer : Nat → Nat
  /-- whether the value's defining op exists and is a
  `top::WeightOp`/`top::NoneOp`. -/
  from_weight_or_none : Nat → Bool
  /-- op handles of all users of the value (in and out of the group). -/
  users : Nat → List Nat

/-- The group handed to the propagator: op handles, group-input value
handles, group-output value handles. -/
structure LgInfo where
  group_ops : List Nat
  group_ins : List Nat
  group_outs : List Nat
  deriving DecidableEq, Repr

/-- `is_broadcast_binary` (LayerGroupUtil.cpp:246-262): the op must be an
`Add/Sub/Mul/Max/Min`, the operand and its peer must have equal rank, and
some dimension must have extent 1 on the operand but not on the peer. -/
def is_broadcast_binary (env : PropEnv) (op v : Nat) : Bool :=
  if !(env.bcast_kind op) then false
  else
    let opds := env.operands op
    let other := if v = opds.getD 0 0 then opds.getD 1 0 else opds.getD 0 0
    let in_shape := env.shape v
    let other_shape := env.shape other
    if in_shape.length ≠ other_shape.length then false
    else (List.zip in_shape other_shape).any
      (fun p => decide (p.1 ≠ p.2) && decide (p.1 = 1))

/-- The n-dimension loop of `get_backward_slice_info`
(LayerGroupUtil.cpp:300-315): for each output slice pair, call `BackwardN`;
a broadcast operand of batch extent 1 is overridden to `(0,1)` regardless of
the callback; otherwise a failed callback or a zero-length slice aborts. -/
def backward_n_loop (bw : Int → Int → Int → Int → Bool × Int × Int)
    (is_bcast : Bool) (n : Int) :
    List slice_pair_t → Int → Int → Option (List slice_pair_t)
  | [], _, _ => some []
  | s :: rest, idx0, slice0 =>
    let r := bw idx0 slice0 s.1 s.2
    if is_bcast = true ∧ n = 1 then
      (backward_n_loop bw is_bcast n rest 0 1).map (fun l => ((0 : Int), (1 : Int)) :: l)
    else if r.1 = false ∨ r.2.2 = 0 then none
    else (backward_n_loop bw is_bcast n rest r.2.1 r.2.2).map
      (fun l => (r.2.1, r.2.2) :: l)

/-- The h-dimension loop of `get_backward_slice_info`
(LayerGroupUtil.cpp:317-337): like the n loop, but additionally fails when a
non-first output slice maps to an input slice starting at 0
(`idx == 0 && i > 0`) or when the mapped slice's end equals the previous
end (`end_reached`). -/
def backward_h_loop (bw : Int → Int → Int → Int → Bool × Int × Int)
    (is_bcast : Bool) (h : Int) :
    List slice_pair_t → Int → Int → Int → Nat → Option (List slice_pair_t)
  | [], _, _, _, _ => some []
  | s :: rest, idx0, slice0, pre_end_idx, i =>
    let r := bw idx0 slice0 s.1 s.2
    if is_bcast = true ∧ h = 1 then
      (backward_h_loop bw is_bcast h rest 0 1 1 (i + 1)).map
        (fun l => ((0 : Int), (1 : Int)) :: l)
    else if r.1 = false ∨ r.2.2 = 0 ∨ (r.2.1 = 0 ∧ 0 < i) ∨
        r.2.1 + r.2.2 = pre_end_idx then none
    else (backward_h_loop bw is_bcast h rest r.2.1 r.2.2 (r.2.1 + r.2.2) (i + 1)).map
      (fun l => (r.2.1, r.2.2) :: l)

/-- `get_backward_slice_info` (LayerGroupUtil.cpp:290-339): derive the
operand `v`'s slice info from the output slice info `out_si` of op `op`.
When a dimension has a single section the whole extent is used without
consulting the callback. -/
def get_backward_slice_info (env : PropEnv) (out_si : slice_info_t)
    (op v : Nat) (shape_secs : shape_secs_t) : Option slice_info_t :=
  let n := env.valN v
  let h := env.valH v
  let is_broadcast_tensor := is_broadcast_binary env op v
  let nres : Option (List slice_pair_t) :=
    if shape_secs.nsecs = 1 then some [((0 : Int), n)]
    else backward_n_loop (env.bwN op) is_broadcast_tensor n out_si.n 0 0
  match nres with
  | none => none
  | some ns =>
    let hres : Option (List slice_pair_t) :=
      if shape_secs.hsecs = 1 then some [((0 : Int), h)]
      else backward_h_loop (env.bwH op) is_broadcast_tensor h out_si.h 0 0 0 0
    match hres with
    | none => none
    | some hs => some { n := ns, h := hs }

/-- Lookup in the tensor-record map (a `std::map<Value, tensor_info_t>`
restricted to the slice-info field, which is all these functions touch). -/
def tmap_get : List (Nat × slice_info_t) → Nat → Option slice_info_t
  | [], _ => none
  | (k, v) :: rest, k2 => if k = k2 then some v else tmap_get rest k2

/-- Insert-or-assign in the tensor-record map. -/
def tmap_set : List (Nat × slice_info_t) → Nat → slice_info_t →
    List (Nat × slice_info_t)
  | [], k, v => [(k, v)]
  | (k0, v0) :: rest, k, v =>
    if k0 = k then (k, v) :: rest else (k0, v0) :: tmap_set rest k v

/-- `strip_back_judge` (LayerGroupUtil.cpp:190-211): a value may be expanded
backward only once every in-group user is already in `op_set`; a value with
out-of-group users must additionally be a group output. -/
def strip_back_judge (lg : LgInfo) (env : PropEnv) (op_set : List Nat)
    (out_tensor_set : List Nat) (v : Nat) : Bool :=
  let users := env.users v
  if users.any (fun u => lg.group_ops.contains u && !(op_set.contains u)) then
    false
  else if users.any (fun u => !(lg.group_ops.contains u)) then
    out_tensor_set.contains v
  else true

/-- The mutable state of one propagation run: the worklist
(`tensor_branchs`, FIFO), the tensor-record map, and the multiset of
processed producer ops (`op_set`; only membership is ever queried). -/
structure BwState where
  tensor_branchs : List Nat
  tensor_infos : List (Nat × slice_info_t)
  op_set : List Nat
  deriving DecidableEq, Repr

/-- The operand loop of `backward_update_slice`
(LayerGroupUtil.cpp:373-395): skip weight/none operands, derive each
operand's slice info, fail on a structural mismatch with an existing
record, record fresh operands, and push those that pass
`strip_back_judge`. -/
def bus_operands (lg : LgInfo) (env : PropEnv) (shape_secs : shape_secs_t)
    (ots : List Nat) (op : Nat) (out_si : slice_info_t) :
    List Nat → BwState → Option BwState
  | [], st => some st
  | v :: rest, st =>
    if env.from_weight_or_none v then
      bus_operands lg env shape_secs ots op out_si rest st
    else
      match get_backward_slice_info env out_si op v shape_secs with
      | none => none
      | some si =>
        match tmap_get st.tensor_infos v with
        | some existing =>
          if is_same_slice_info si existing = false then none
          else
            bus_operands lg env shape_secs ots op out_si rest
              (if strip_back_judge lg env st.op_set ots v then
                { st with tensor_branchs := st.tensor_branchs ++ [v] }
               else st)
        | none =>
          bus_operands lg env shape_secs ots op out_si rest
            (if strip_back_judge lg env st.op_set ots v then
              { st with tensor_infos := tmap_set st.tensor_infos v si,
                        tensor_branchs := st.tensor_branchs ++ [v] }
             else { st with tensor_infos := tmap_set st.tensor_infos v si })

/-- `backward_update_slice` (LayerGroupUtil.cpp:355-397): a group-input
tensor is final; otherwise insert the producing op into `op_set`, read the
out tensor's record (present for every worklist element) and run the
operand loop. -/
def backward_update_slice (lg : LgInfo) (env : PropEnv)
    (shape_secs : shape_secs_t) (ots : List Nat) (out : Nat) (st : BwState) :
    Option BwState :=
  if lg.group_ins.contains out then some st
  else
    bus_operands lg env shape_secs ots (env.producer out)
      ((tmap_get st.tensor_infos out).getD {})
      (env.operands (env.producer out))
      { st with op_set := env.producer out :: st.op_set }

/-- The worklist loop shared by `stripe_mine_idx_slice` and
`stripe_mine_max_slice` (LayerGroupUtil.cpp:475-484): pop the front tensor
and process it until the worklist empties or propagation fails.  `fuel`
bounds the iterations (the C++ loop terminates because the SSA graph is
acyclic). -/
def stripe_mine_loop (lg : LgInfo) (env : PropEnv) (shape_secs : shape_secs_t)
    (ots : List Nat) : Nat → BwState → Option BwState
  | 0, _ => none
  | fuel + 1, st =>
    match st.tensor_branchs with
    | [] => some st
    | out :: rest =>
      match backward_update_slice lg env shape_secs ots out
          { st with tensor_branchs := rest } with
      | none => none
      | some st2 => stripe_mine_loop lg env shape_secs ots fuel st2

/-- The seeding loop of `stripe_mine_idx_slice`
(LayerGroupUtil.cpp:464-473): give every group output its exact-mode
partition, add it to `out_tensor_set`, and push it when
`strip_back_judge` allows. -/
def seed_out_tensors (lg : LgInfo) (env : PropEnv) (shape_secs : shape_secs_t) :
    List Nat → BwState → List Nat → BwState × List Nat
  | [], st, ots => (st, ots)
  | out :: rest, st, ots =>
    seed_out_tensors lg env shape_secs rest
      (if strip_back_judge lg env st.op_set (ots ++ [out]) out then
        { st with
          tensor_infos := (tmap_set st.tensor_infos out
            (get_out_slice_info shape_secs (env.valN out) (env.valH out))),
          tensor_branchs := st.tensor_branchs ++ [out] }
       else
        { st with
          tensor_infos := (tmap_set st.tensor_infos out
            (get_out_slice_info shape_secs (env.valN out) (env.valH out))) })
      (ots ++ [out])

/-- The multi-op path of `stripe_mine_idx_slice` (LayerGroupUtil.cpp:452-487)
returning the full final state (the C++ keeps `op_set` local and returns
only the map; theorems about the processed-op set speak about this run). -/
def stripe_mine_idx_run (lg : LgInfo) (env : PropEnv)
    (shape_secs : shape_secs_t) (fuel : Nat) : Option BwState :=
  stripe_mine_loop lg env shape_secs
    (seed_out_tensors lg env shape_secs lg.group_outs ⟨[], [], []⟩ []).2 fuel
    (seed_out_tensors lg env shape_secs lg.group_outs ⟨[], [], []⟩ []).1

/-- `stripe_mine_idx_slice` (LayerGroupUtil.cpp:452-487): a single-op group
is returned as-is without touching the map (the C++ early-returns before
the `clear()`); otherwise the map is rebuilt by seeding and the worklist
loop. -/
def stripe_mine_idx_slice (lg : LgInfo) (env : PropEnv)
    (shape_secs : shape_secs_t) (fuel : Nat)
    (tensor_infos0 : List (Nat × slice_info_t)) :
    Option (List (Nat × slice_info_t)) :=
  if lg.group_ops.length = 1 then some tensor_infos0
  else (stripe_mine_idx_run lg env shape_secs fuel).map (fun st => st.tensor_infos)

/-- C10: with more than one height section and a non-broadcast operand, the
height backward-mapping loop fails not only on an explicit callback
rejection or a zero-length mapped slice, but also whenever a non-first
output slice maps to an input slice starting at index 0, or the mapped
slice's end equals the previous mapped slice's end; and whenever that loop
fails, `get_backward_slice_info` fails (for `hsecs ≠ 1` the loop is exactly
its height path). -/
theorem claim_C10_h_failure_modes
    (bw : Int → Int → Int → Int → Bool × Int × Int) (h : Int)
    (s : slice_pair_t) (rest : List slice_pair_t)
    (idx0 slice0 pre_end_idx : Int) (i : Nat)
    (hcond : (bw idx0 slice0 s.1 s.2).1 = false ∨
      (bw idx0 slice0 s.1 s.2).2.2 = 0 ∨
      ((bw idx0 slice0 s.1 s.2).2.1 = 0 ∧ 0 < i) ∨
      (bw idx0 slice0 s.1 s.2).2.1 + (bw idx0 slice0 s.1 s.2).2.2 = pre_end_idx) :
    backward_h_loop bw false h (s :: rest) idx0 slice0 pre_end_idx i = none ∧
    (∀ (env : PropEnv) (op v : Nat) (ss : shape_secs_t) (out_si : slice_info_t),
      ss.hsecs ≠ 1 →
      backward_h_loop (env.bwH op) (is_broadcast_binary env op v) (env.valH v)
        out_si.h 0 0 0 0 = none →
      get_backward_slice_info env out_si op v ss = none) := by
  constructor
  · simp only [backward_h_loop]
    rw [if_neg (by simp), if_pos hcond]
  · intro env op v ss out_si hs1 hloop
    rw [get_backward_slice_info]
    cases hn : (if ss.nsecs = 1 then some [((0 : Int), env.valN v)]
        else backward_n_loop (env.bwN op) (is_broadcast_binary env op v)
          (env.valN v) out_si.n 0 0) with
    | none => rfl
    | some ns =>
      rw [if_neg hs1, hloop]

/-- Witness for C10: a callback mapping the second output slice to an input
slice starting at 0 makes the loop (at position `i = 1`) fail. -/
theorem claim_C10_witness :
    (((fun (_ : Int) (_ : Int) (_ : Int) (_ : Int) =>
        ((true, 0, 2) : Bool × Int × Int)) 0 0 (0 : Int) (2 : Int)).2.1 = 0 ∧
      0 < 1) ∧
    backward_h_loop
      (fun (_ : Int) (_ : Int) (_ : Int) (_ : Int) =>
        ((true, 0, 2) : Bool × Int × Int))
      false 4 [((0 : Int), (2 : Int))] 0 0 5 1 = none :=
  ⟨⟨by decide, by decide⟩,
   (claim_C10_h_failure_modes
     (fun _ _ _ _ => ((true, 0, 2) : Bool × Int × Int)) 4 (0, 2) [] 0 0 5 1
     (by decide)).1⟩

lemma backward_n_loop_bcast (bw : Int → Int → Int → Int → Bool × Int × Int) :
    ∀ (l : List slice_pair_t) (idx slice : Int),
      backward_n_loop bw true 1 l idx slice =
        some (List.replicate l.length ((0 : Int), (1 : Int)))
  | [], idx, slice => rfl
  | s :: rest, idx, slice => by
    simp only [backward_n_loop]
    rw [if_pos (⟨trivial, trivial⟩ : True ∧ True), backward_n_loop_bcast bw rest 0 1]
    simp [List.replicate_succ]

lemma backward_h_loop_bcast (bw : Int → Int → Int → Int → Bool × Int × Int) :
    ∀ (l : List slice_pair_t) (idx slice pre : Int) (i : Nat),
      backward_h_loop bw true 1 l idx slice pre i =
        some (List.replicate l.length ((0 : Int), (1 : Int)))
  | [], idx, slice, pre, i => rfl
  | s :: rest, idx, slice, pre, i => by
    simp only [backward_h_loop]
    rw [if_pos (⟨trivial, trivial⟩ : True ∧ True), backward_h_loop_bcast bw rest 0 1 1 (i + 1)]
    simp [List.replicate_succ]

/-- C4 (amended): for an operand that `is_broadcast_binary` recognizes
(symmetric binary op of the `Add/Sub/Mul/Max/Min` kinds with a
broadcast dimension) and whose extent on the dimension is 1, a successful
`get_backward_slice_info` assigns the degenerate pair `(0,1)` for every
output slice on that dimension, regardless of the split factors and of what
the backward callbacks return. -/
theorem claim_C4_amended (env : PropEnv) (op v : Nat) (ss : shape_secs_t)
    (out_si si : slice_info_t)
    (hbc : is_broadcast_binary env op v = true)
    (hres : get_backward_slice_info env out_si op v ss = some si) :
    (env.valH v = 1 → ((out_si.h.length : Int) = ss.hsecs) →
      si.h = List.replicate out_si.h.length ((0 : Int), (1 : Int))) ∧
    (env.valN v = 1 → ((out_si.n.length : Int) = ss.nsecs) →
      si.n = List.replicate out_si.n.length ((0 : Int), (1 : Int))) := by
  rw [get_backward_slice_info] at hres
  cases hn : (if ss.nsecs = 1 then some [((0 : Int), env.valN v)]
      else backward_n_loop (env.bwN op) (is_broadcast_binary env op v)
        (env.valN v) out_si.n 0 0) with
  | none => rw [hn] at hres; cases hres
  | some ns =>
    rw [hn] at hres
    simp only [Option.some.injEq] at hres
    cases hh : (if ss.hsecs = 1 then some [((0 : Int), env.valH v)]
        else backward_h_loop (env.bwH op) (is_broadcast_binary env op v)
          (env.valH v) out_si.h 0 0 0 0) with
    | none => rw [hh] at hres; cases hres
    | some hs =>
      rw [hh] at hres
      simp only [Option.some.injEq] at hres
      subst hres
      constructor
      · intro hv1 hlen
        by_cases hs1 : ss.hsecs = 1
        · rw [if_pos hs1] at hh
          have hl1 : out_si.h.length = 1 := by omega
          simp only [Option.some.injEq] at hh
          rw [hl1, ← hh, hv1]
          rfl
        · rw [if_neg hs1, hbc, hv1] at hh
          rw [backward_h_loop_bcast (env.bwH op) out_si.h 0 0 0 0] at hh
          simp only [Option.some.injEq] at hh
          rw [← hh]
      · intro hv1 hlen
        by_cases hs1 : ss.nsecs = 1
        · rw [if_pos hs1] at hn
          have hl1 : out_si.n.length = 1 := by omega
          simp only [Option.some.injEq] at hn
          rw [hl1, ← hn, hv1]
          rfl
        · rw [if_neg hs1, hbc, hv1] at hn
          rw [backward_n_loop_bcast (env.bwN op) out_si.n 0 0] at hn
          simp only [Option.some.injEq] at hn
          rw [← hn]

/-- Concrete environment for the C4 counterexample: op 0 is conv-like (not
one of the `is_broadcast_binary` kinds), its operand value 1 has height
extent 1, and the height callback maps output slices to where they start. -/
def C4cex_env : PropEnv :=
  { operands := fun _ => [1, 2]
    bcast_kind := fun _ => false
    bwN := fun _ _ _ _ _ => (true, 0, 0)
    bwH := fun _ _ _ oi _ => (true, oi, 1)
    shape := fun _ => []
    valN := fun _ => 4
    valH := fun v => if v = 1 then 1 else 4
    producer := fun _ => 0
    from_weight_or_none := fun _ => false
    users := fun _ => [] }

/-- C4: the claim that EVERY operand of extent 1 on a dimension receives the
degenerate pair `(0,1)` is FALSE: the override only applies when
`is_broadcast_binary` recognizes the op (symmetric binary of kinds
`Add/Sub/Mul/Max/Min`).  For a conv-like op whose operand has height extent
1, the callback's answers are kept: with two output height slices the
operand receives `[(0,1), (2,1)]`, not `[(0,1), (0,1)]`. -/
theorem claim_C4_cex :
    C4cex_env.valH 1 = 1 ∧
    get_backward_slice_info C4cex_env
        ⟨[((0 : Int), (4 : Int))], [(0, 2), (2, 2)]⟩ 0 1 ⟨1, 2⟩ =
      some ⟨[(0, 4)], [(0, 1), (2, 1)]⟩ ∧
    ([((0 : Int), (1 : Int)), ((2 : Int), (1 : Int))] ≠
      List.replicate 2 ((0 : Int), (1 : Int))) := by
  refine ⟨rfl, by decide, by decide⟩

/-- Concrete environment for the C4 witness: op 0 is an `Add`-like op whose
operand value 1 is broadcast on both dimensions (shape `[1,1]` against
`[4,4]`), with callbacks that would answer nonsense — the broadcast override
wins. -/
def C4wit_env : PropEnv :=
  { operands := fun _ => [1, 2]
    bcast_kind := fun _ => true
    bwN := fun _ _ _ _ _ => (false, 7, 0)
    bwH := fun _ _ _ _ _ => (false, 7, 0)
    shape := fun v => if v = 1 then [1, 1] else [4, 4]
    valN := fun v => if v = 1 then 1 else 4
    valH := fun v => if v = 1 then 1 else 4
    producer := fun _ => 0
    from_weight_or_none := fun _ => false
    users := fun _ => [] }

/-- Witness for C4 (amended): the broadcast operand receives `[(0,1),(0,1)]`
on both dimensions even though the callbacks always fail. -/
theorem claim_C4_witness :
    (is_broadcast_binary C4wit_env 0 1 = true ∧
      get_backward_slice_info C4wit_env
        ⟨[((0 : Int), (2 : Int)), (2, 2)], [(0, 2), (2, 2)]⟩ 0 1 ⟨2, 2⟩ =
        some ⟨[(0, 1), (0, 1)], [(0, 1), (0, 1)]⟩ ∧
      C4wit_env.valH 1 = 1 ∧ C4wit_env.valN 1 = 1) ∧
    (((⟨[(0, 1), (0, 1)], [(0, 1), (0, 1)]⟩ : slice_info_t).h =
        List.replicate 2 ((0 : Int), (1 : Int))) ∧
     ((⟨[(0, 1), (0, 1)], [(0, 1), (0, 1)]⟩ : slice_info_t).n =
        List.replicate 2 ((0 : Int), (1 : Int)))) := by
  refine ⟨⟨by decide, by decide, rfl, rfl⟩, ?_, ?_⟩
  · exact (claim_C4_amended C4wit_env 0 1 ⟨2, 2⟩
      ⟨[(0, 2), (2, 2)], [(0, 2), (2, 2)]⟩ ⟨[(0, 1), (0, 1)], [(0, 1), (0, 1)]⟩
      (by decide) (by decide)).1 rfl (by decide)
  · exact (claim_C4_amended C4wit_env 0 1 ⟨2, 2⟩
      ⟨[(0, 2), (2, 2)], [(0, 2), (2, 2)]⟩ ⟨[(0, 1), (0, 1)], [(0, 1), (0, 1)]⟩
      (by decide) (by decide)).2 rfl (by decide)

lemma tmap_get_set_eq : ∀ (m : List (Nat × slice_info_t)) (k : Nat)
    (v : slice_info_t), tmap_get (tmap_set m k v) k = some v
  | [], k, v => by simp [tmap_set, tmap_get]
  | (k0, v0) :: rest, k, v => by
    by_cases h : k0 = k
    · subst h
      simp [tmap_set, tmap_get]
    · simp only [tmap_set, if_neg h, tmap_get]
      exact tmap_get_set_eq rest k v

lemma tmap_get_set_ne : ∀ (m : List (Nat × slice_info_t)) (k k2 : Nat)
    (v : slice_info_t), k ≠ k2 →
      tmap_get (tmap_set m k v) k2 = tmap_get m k2
  | [], k, k2, v, hne => by
    simp [tmap_set, tmap_get, hne]
  | (k0, v0) :: rest, k, k2, v, hne => by
    by_cases h : k0 = k
    · subst h
      simp only [tmap_set, if_pos rfl, tmap_get]
      rw [if_neg hne, if_neg hne]
    · simp only [tmap_set, if_neg h, tmap_get]
      by_cases h2 : k0 = k2
      · rw [if_pos h2, if_pos h2]
      · rw [if_neg h2, if_neg h2]
        exact tmap_get_set_ne rest k k2 v hne

lemma is_same_slice_info_refl (si : slice_info_t) :
    is_same_slice_info si si = true := by
  rw [is_same_slice_info, if_neg (by simp)]
  have hz : ∀ l : List slice_pair_t,
      (List.zip l l).all (fun p => is_same_slice p.1 p.2) = true := by
    intro l
    induction l with
    | nil => rfl
    | cons a rest ih =>
      simp only [List.zip_cons_cons, List.all_cons, ih, Bool.and_true]
      simp [is_same_slice]
  rw [hz, hz]
  rfl

lemma bus_operands_op_set (lg : LgInfo) (env : PropEnv) (ss : shape_secs_t)
    (ots : List Nat) (op : Nat) (out_si : slice_info_t) :
    ∀ (opds : List Nat) (st st' : BwState),
      bus_operands lg env ss ots op out_si opds st = some st' →
      st'.op_set = st.op_set
  | [], st, st' => by
    intro h
    simp only [bus_operands, Option.some.injEq] at h
    rw [← h]
  | v :: rest, st, st' => by
    intro h
    rw [bus_operands] at h
    split at h
    · exact bus_operands_op_set lg env ss ots op out_si rest st st' h
    · split at h
      · cases h
      · rename_i si hsi
        split at h
        · rename_i existing hex
          split at h
          · cases h
          · split at h
            all_goals
              have h2 := bus_operands_op_set lg env ss ots op out_si rest _ st' h
            all_goals exact h2
        · split at h
          all_goals
            have h2 := bus_operands_op_set lg env ss ots op out_si rest _ st' h
          all_goals exact h2

lemma bus_operands_mono (lg : LgInfo) (env : PropEnv) (ss : shape_secs_t)
    (ots : List Nat) (op : Nat) (out_si : slice_info_t) :
    ∀ (opds : List Nat) (st st' : BwState),
      bus_operands lg env ss ots op out_si opds st = some st' →
      ∀ k val, tmap_get st.tensor_infos k = some val →
        tmap_get st'.tensor_infos k = some val
  | [], st, st' => by
    intro h k val hk
    simp only [bus_operands, Option.some.injEq] at h
    rw [← h]
    exact hk
  | v :: rest, st, st' => by
    intro h k val hk
    rw [bus_operands] at h
    split at h
    · exact bus_operands_mono lg env ss ots op out_si rest st st' h k val hk
    · split at h
      · cases h
      · rename_i si hsi
        split at h
        · rename_i existing hex
          split at h
          · cases h
          · split at h <;>
              exact bus_operands_mono lg env ss ots op out_si rest _ st' h k val hk
        · rename_i hnone
          have hkv : k ≠ v := by
            intro hkv
            rw [hkv, hnone] at hk
            cases hk
          have hk1 : tmap_get (tmap_set st.tensor_infos v si) k = some val := by
            rw [tmap_get_set_ne _ v k si (Ne.symm hkv)]
            exact hk
          split at h <;>
            exact bus_operands_mono lg env ss ots op out_si rest _ st' h k val hk1

lemma bus_operands_post (lg : LgInfo) (env : PropEnv) (ss : shape_secs_t)
    (ots : List Nat) (op : Nat) (out_si : slice_info_t) :
    ∀ (opds : List Nat) (st st' : BwState),
      bus_operands lg env ss ots op out_si opds st = some st' →
      ∀ v ∈ opds, env.from_weight_or_none v = false →
        ∃ si vsi, get_backward_slice_info env out_si op v ss = some si ∧
          tmap_get st'.tensor_infos v = some vsi ∧
          is_same_slice_info si vsi = true
  | [], st, st' => by
    intro h v hv
    cases hv
  | v :: rest, st, st' => by
    intro h w hw hwt
    rw [bus_operands] at h
    rcases List.mem_cons.mp hw with rfl | hwrest
    · rw [if_neg (by rw [hwt]; exact Bool.false_ne_true)] at h
      split at h
      · cases h
      · rename_i si hsi
        split at h
        · rename_i existing hex
          split at h
          · cases h
          · rename_i hsame
            have hsame2 : is_same_slice_info si existing = true := by
              cases hval : is_same_slice_info si existing with
              | false => exact absurd hval hsame
              | true => rfl
            have hget : tmap_get st'.tensor_infos w = some existing := by
              split at h <;>
                exact bus_operands_mono lg env ss ots op out_si rest _ st' h
                  w existing hex
            exact ⟨si, existing, hsi, hget, hsame2⟩
        · have hget1 : tmap_get (tmap_set st.tensor_infos w si) w = some si :=
            tmap_get_set_eq st.tensor_infos w si
          have hget : tmap_get st'.tensor_infos w = some si := by
            split at h <;>
              exact bus_operands_mono lg env ss ots op out_si rest _ st' h
                w si hget1
          exact ⟨si, si, hsi, hget, is_same_slice_info_refl si⟩
    · split at h
      · exact bus_operands_post lg env ss ots op out_si rest st st' h w hwrest hwt
      · split at h
        · cases h
        · rename_i si hsi
          split at h
          · rename_i existing hex
            split at h
            · cases h
            · split at h <;>
                exact bus_operands_post lg env ss ots op out_si rest _ st' h
                  w hwrest hwt
          · split at h <;>
              exact bus_operands_post lg env ss ots op out_si rest _ st' h
                w hwrest hwt

lemma bus_operands_conflict (lg : LgInfo) (env : PropEnv) (ss : shape_secs_t)
    (ots : List Nat) (op : Nat) (out_si : slice_info_t)
    (v : Nat) (si existing : slice_info_t)
    (hwt : env.from_weight_or_none v = false)
    (hg : get_backward_slice_info env out_si op v ss = some si)
    (hns : is_same_slice_info si existing = false) :
    ∀ (opds : List Nat) (st : BwState), v ∈ opds →
      tmap_get st.tensor_infos v = some existing →
      bus_operands lg env ss ots op out_si opds st = none
  | [], st, hv, hm => absurd hv (List.not_mem_nil v)
  | u :: rest, st, hv, hm => by
    rw [bus_operands]
    by_cases huv : u = v
    · subst huv
      rw [if_neg (by rw [hwt]; exact Bool.false_ne_true)]
      simp only [hg, hm]
      rw [if_pos hns]
    · have hvrest : v ∈ rest := by
        rcases List.mem_cons.mp hv with h | h
        · exact absurd h.symm huv
        · exact h
      split
      · exact bus_operands_conflict lg env ss ots op out_si v si existing
          hwt hg hns rest st hvrest hm
      · cases hgu : get_backward_slice_info env out_si op u ss with
        | none => simp only [hgu]
        | some siu =>
          simp only [hgu]
          cases hmu : tmap_get st.tensor_infos u with
          | some exu =>
            simp only [hmu]
            by_cases hsame : is_same_slice_info siu exu = false
            · rw [if_pos hsame]
            · rw [if_neg hsame]
              by_cases hj : strip_back_judge lg env st.op_set ots u = true
              · rw [if_pos hj]
                exact bus_operands_conflict lg env ss ots op out_si v si
                  existing hwt hg hns rest _ hvrest hm
              · rw [if_neg hj]
                exact bus_operands_conflict lg env ss ots op out_si v si
                  existing hwt hg hns rest st hvrest hm
          | none =>
            simp only [hmu]
            have hm1 : tmap_get (tmap_set st.tensor_infos u siu) v =
                some existing := by
              rw [tmap_get_set_ne _ u v siu huv]
              exact hm
            by_cases hj : strip_back_judge lg env st.op_set ots u = true
            · rw [if_pos hj]
              exact bus_operands_conflict lg env ss ots op out_si v si
                existing hwt hg hns rest _ hvrest hm1
            · rw [if_neg hj]
              exact bus_operands_conflict lg env ss ots op out_si v si
                existing hwt hg hns rest _ hvrest hm1

lemma tmap_get_set_exists (m : List (Nat × slice_info_t)) (k k2 : Nat)
    (v : slice_info_t) (h : ∃ x, tmap_get m k2 = some x) :
    ∃ x, tmap_get (tmap_set m k v) k2 = some x := by
  obtain ⟨x, hx⟩ := h
  by_cases hk : k = k2
  · subst hk
    exact ⟨v, tmap_get_set_eq m k v⟩
  · refine ⟨x, ?_⟩
    rw [tmap_get_set_ne m k k2 v hk]
    exact hx

lemma bus_operands_branchs (lg : LgInfo) (env : PropEnv) (ss : shape_secs_t)
    (ots : List Nat) (op : Nat) (out_si : slice_info_t) :
    ∀ (opds : List Nat) (st st' : BwState),
      bus_operands lg env ss ots op out_si opds st = some st' →
      (∀ b ∈ st.tensor_branchs, ∃ x, tmap_get st.tensor_infos b = some x) →
      ∀ b ∈ st'.tensor_branchs, ∃ x, tmap_get st'.tensor_infos b = some x
  | [], st, st' => by
    intro h hbr
    simp only [bus_operands, Option.some.injEq] at h
    rw [← h]
    exact hbr
  | v :: rest, st, st' => by
    intro h hbr
    rw [bus_operands] at h
    split at h
    · exact bus_operands_branchs lg env ss ots op out_si rest st st' h hbr
    · split at h
      · cases h
      · rename_i si hsi
        split at h
        · rename_i existing hex
          split at h
          · cases h
          · split at h
            · refine bus_operands_branchs lg env ss ots op out_si rest _ st' h ?_
              intro b hb
              rcases List.mem_append.mp hb with hb2 | hb2
              · exact hbr b hb2
              · rw [List.mem_singleton] at hb2
                subst hb2
                exact ⟨existing, hex⟩
            · exact bus_operands_branchs lg env ss ots op out_si rest st st' h hbr
        · split at h
          · refine bus_operands_branchs lg env ss ots op out_si rest _ st' h ?_
            intro b hb
            rcases List.mem_append.mp hb with hb2 | hb2
            · exact tmap_get_set_exists st.tensor_infos v b si (hbr b hb2)
            · rw [List.mem_singleton] at hb2
              subst hb2
              exact ⟨si, tmap_get_set_eq st.tensor_infos b si⟩
          · refine bus_operands_branchs lg env ss ots op out_si rest _ st' h ?_
            intro b hb
            exact tmap_get_set_exists st.tensor_infos v b si (hbr b hb)

/-- A tensor-record map is consistent with a processed op `u`: some
non-group-input tensor produced by `u` is recorded, and every non-weight
operand of `u` has a backward-derived slice info that is structurally
identical (`is_same_slice_info`) to the operand's own record. -/
def op_consistent (lg : LgInfo) (env : PropEnv) (ss : shape_secs_t)
    (m : List (Nat × slice_info_t)) (u : Nat) : Prop :=
  ∃ out osi, env.producer out = u ∧ lg.group_ins.contains out = false ∧
    tmap_get m out = some osi ∧
    ∀ v ∈ env.operands u, env.from_weight_or_none v = false →
      ∃ si vsi, get_backward_slice_info env osi u v ss = some si ∧
        tmap_get m v = some vsi ∧ is_same_slice_info si vsi = true

lemma op_consistent_mono (lg : LgInfo) (env : PropEnv) (ss : shape_secs_t)
    (m m2 : List (Nat × slice_info_t)) (u : Nat)
    (hmono : ∀ k val, tmap_get m k = some val → tmap_get m2 k = some val)
    (h : op_consistent lg env ss m u) : op_consistent lg env ss m2 u := by
  obtain ⟨out, osi, h1, h2, h3, h4⟩ := h
  refine ⟨out, osi, h1, h2, hmono _ _ h3, ?_⟩
  intro v hv hw
  obtain ⟨si, vsi, g1, g2, g3⟩ := h4 v hv hw
  exact ⟨si, vsi, g1, hmono _ _ g2, g3⟩

lemma backward_update_slice_inv (lg : LgInfo) (env : PropEnv)
    (ss : shape_secs_t) (ots : List Nat) (out : Nat) (st st' : BwState)
    (h : backward_update_slice lg env ss ots out st = some st')
    (hbr : ∀ b ∈ st.tensor_branchs, ∃ x, tmap_get st.tensor_infos b = some x)
    (hout : ∃ x, tmap_get st.tensor_infos out = some x)
    (hco : ∀ u ∈ st.op_set, op_consistent lg env ss st.tensor_infos u) :
    (∀ b ∈ st'.tensor_branchs, ∃ x, tmap_get st'.tensor_infos b = some x) ∧
    (∀ u ∈ st'.op_set, op_consistent lg env ss st'.tensor_infos u) := by
  rw [backward_update_slice] at h
  split at h
  · cases h
    exact ⟨hbr, hco⟩
  · rename_i hgin
    have hmono := bus_operands_mono lg env ss ots (env.producer out)
      ((tmap_get st.tensor_infos out).getD {}) (env.operands (env.producer out))
      _ st' h
    have hopset := bus_operands_op_set lg env ss ots (env.producer out)
      ((tmap_get st.tensor_infos out).getD {}) (env.operands (env.producer out))
      _ st' h
    refine ⟨bus_operands_branchs lg env ss ots (env.producer out)
      ((tmap_get st.tensor_infos out).getD {}) (env.operands (env.producer out))
      _ st' h hbr, ?_⟩
    intro u hu
    rw [hopset] at hu
    rcases List.mem_cons.mp hu with rfl | hu2
    · obtain ⟨x, hx⟩ := hout
      refine ⟨out, x, rfl, ?_, hmono _ _ hx, ?_⟩
      · cases hc : lg.group_ins.contains out with
        | false => rfl
        | true => exact absurd hc hgin
      · intro v hv hw
        have hpost := bus_operands_post lg env ss ots (env.producer out)
          ((tmap_get st.tensor_infos out).getD {})
          (env.operands (env.producer out)) _ st' h v hv hw
        rw [hx] at hpost
        exact hpost
    · exact op_consistent_mono lg env ss st.tensor_infos st'.tensor_infos u
        hmono (hco u hu2)

lemma stripe_mine_loop_inv (lg : LgInfo) (env : PropEnv) (ss : shape_secs_t)
    (ots : List Nat) :
    ∀ (fuel : Nat) (st st' : BwState),
      stripe_mine_loop lg env ss ots fuel st = some st' →
      (∀ b ∈ st.tensor_branchs, ∃ x, tmap_get st.tensor_infos b = some x) →
      (∀ u ∈ st.op_set, op_consistent lg env ss st.tensor_infos u) →
      (∀ b ∈ st'.tensor_branchs, ∃ x, tmap_get st'.tensor_infos b = some x) ∧
      (∀ u ∈ st'.op_set, op_consistent lg env ss st'.tensor_infos u)
  | 0, st, st' => by
    intro h
    cases h
  | fuel + 1, st, st' => by
    intro h hbr hco
    rw [stripe_mine_loop] at h
    split at h
    · cases h
      exact ⟨hbr, hco⟩
    · rename_i out rest hbs
      split at h
      · cases h
      · rename_i st2 hstep
        have hbr2 : ∀ b ∈ rest, ∃ x, tmap_get st.tensor_infos b = some x := by
          intro b hb
          refine hbr b ?_
          rw [hbs]
          exact List.mem_cons_of_mem _ hb
        have hout : ∃ x, tmap_get st.tensor_infos out = some x := by
          refine hbr out ?_
          rw [hbs]
          exact List.mem_cons_self _ _
        obtain ⟨h1, h2⟩ := backward_update_slice_inv lg env ss ots out
          { st with tensor_branchs := rest } st2 hstep hbr2 hout hco
        exact stripe_mine_loop_inv lg env ss ots fuel st2 st' h h1 h2

lemma stripe_mine_loop_mono (lg : LgInfo) (env : PropEnv) (ss : shape_secs_t)
    (ots : List Nat) :
    ∀ (fuel : Nat) (st st' : BwState),
      stripe_mine_loop lg env ss ots fuel st = some st' →
      ∀ k val, tmap_get st.tensor_infos k = some val →
        tmap_get st'.tensor_infos k = some val
  | 0, st, st' => by
    intro h
    cases h
  | fuel + 1, st, st' => by
    intro h k val hk
    rw [stripe_mine_loop] at h
    split at h
    · cases h
      exact hk
    · rename_i out rest hbs
      split at h
      · cases h
      · rename_i st2 hstep
        have hk2 : tmap_get st2.tensor_infos k = some val := by
          rw [backward_update_slice] at hstep
          split at hstep
          · cases hstep
            exact hk
          · exact bus_operands_mono lg env ss ots (env.producer out)
              ((tmap_get st.tensor_infos out).getD {})
              (env.operands (env.producer out)) _ st2 hstep k val hk
        exact stripe_mine_loop_mono lg env ss ots fuel st2 st' h k val hk2

lemma seed_out_tensors_ops (lg : LgInfo) (env : PropEnv) (ss : shape_secs_t) :
    ∀ (outs : List Nat) (st : BwState) (ots : List Nat),
      (seed_out_tensors lg env ss outs st ots).1.op_set = st.op_set
  | [], st, ots => rfl
  | out :: rest, st, ots => by
    rw [seed_out_tensors]
    split
    · exact seed_out_tensors_ops lg env ss rest
        { st with
          tensor_infos := (tmap_set st.tensor_infos out
            (get_out_slice_info ss (env.valN out) (env.valH out))),
          tensor_branchs := st.tensor_branchs ++ [out] }
        (ots ++ [out])
    · exact seed_out_tensors_ops lg env ss rest
        { st with
          tensor_infos := (tmap_set st.tensor_infos out
            (get_out_slice_info ss (env.valN out) (env.valH out))) }
        (ots ++ [out])

lemma seed_out_tensors_preserves (lg : LgInfo) (env : PropEnv)
    (ss : shape_secs_t) :
    ∀ (outs : List Nat) (st : BwState) (ots : List Nat) (k : Nat),
      tmap_get st.tensor_infos k =
        some (get_out_slice_info ss (env.valN k) (env.valH k)) →
      tmap_get (seed_out_tensors lg env ss outs st ots).1.tensor_infos k =
        some (get_out_slice_info ss (env.valN k) (env.valH k))
  | [], st, ots, k => fun h => h
  | out :: rest, st, ots, k => by
    intro hk
    have hstep : ∀ m : List (Nat × slice_info_t),
        tmap_get m k = some (get_out_slice_info ss (env.valN k) (env.valH k)) →
        tmap_get (tmap_set m out
            (get_out_slice_info ss (env.valN out) (env.valH out))) k =
          some (get_out_slice_info ss (env.valN k) (env.valH k)) := by
      intro m hm
      by_cases hko : out = k
      · subst hko
        rw [tmap_get_set_eq]
      · rw [tmap_get_set_ne m out k _ hko]
        exact hm
    rw [seed_out_tensors]
    split
    · exact seed_out_tensors_preserves lg env ss rest _ (ots ++ [out]) k
        (hstep st.tensor_infos hk)
    · exact seed_out_tensors_preserves lg env ss rest _ (ots ++ [out]) k
        (hstep st.tensor_infos hk)

lemma seed_out_tensors_get (lg : LgInfo) (env : PropEnv) (ss : shape_secs_t) :
    ∀ (outs : List Nat) (st : BwState) (ots : List Nat),
      ∀ out ∈ outs,
        tmap_get (seed_out_tensors lg env ss outs st ots).1.tensor_infos out =
          some (get_out_slice_info ss (env.valN out) (env.valH out))
  | [], st, ots => by
    intro out hout
    cases hout
  | out0 :: rest, st, ots => by
    intro out hout
    rcases List.mem_cons.mp hout with rfl | hrest
    · rw [seed_out_tensors]
      split
      · exact seed_out_tensors_preserves lg env ss rest _ (ots ++ [out]) out
          (tmap_get_set_eq st.tensor_infos out _)
      · exact seed_out_tensors_preserves lg env ss rest _ (ots ++ [out]) out
          (tmap_get_set_eq st.tensor_infos out _)
    · rw [seed_out_tensors]
      split
      · exact seed_out_tensors_get lg env ss rest _ (ots ++ [out0]) out hrest
      · exact seed_out_tensors_get lg env ss rest _ (ots ++ [out0]) out hrest

lemma seed_out_tensors_branchs (lg : LgInfo) (env : PropEnv)
    (ss : shape_secs_t) :
    ∀ (outs : List Nat) (st : BwState) (ots : List Nat),
      (∀ b ∈ st.tensor_branchs, ∃ x, tmap_get st.tensor_infos b = some x) →
      ∀ b ∈ (seed_out_tensors lg env ss outs st ots).1.tensor_branchs,
        ∃ x, tmap_get
          (seed_out_tensors lg env ss outs st ots).1.tensor_infos b = some x
  | [], st, ots => fun h => h
  | out :: rest, st, ots => by
    intro hbr
    rw [seed_out_tensors]
    split
    · refine seed_out_tensors_branchs lg env ss rest _ (ots ++ [out]) ?_
      intro b hb
      rcases List.mem_append.mp hb with hb2 | hb2
      · exact tmap_get_set_exists st.tensor_infos out b _ (hbr b hb2)
      · rw [List.mem_singleton] at hb2
        subst hb2
        exact ⟨_, tmap_get_set_eq st.tensor_infos b _⟩
    · refine seed_out_tensors_branchs lg env ss rest _ (ots ++ [out]) ?_
      intro b hb
      exact tmap_get_set_exists st.tensor_infos out b _ (hbr b hb)

/-- C1: (a) if an operand tensor already carries a slice record and the
newly derived slice info is not structurally identical to it (as decided by
`is_same_slice_info`), `backward_update_slice` fails for this candidate;
(b) on success of exact-mode propagation, every processed op's operand
records are consistent: the slice info derived from the producing op's
recorded output info is structurally identical to the operand's record, so
every tensor's record is consistent with all the in-group consumers the run
processed. -/
theorem claim_C1_conflict_and_consistency :
    (∀ (lg : LgInfo) (env : PropEnv) (ss : shape_secs_t) (ots : List Nat)
        (out : Nat) (st : BwState) (v : Nat) (si existing : slice_info_t),
      lg.group_ins.contains out = false →
      v ∈ env.operands (env.producer out) →
      env.from_weight_or_none v = false →
      get_backward_slice_info env ((tmap_get st.tensor_infos out).getD {})
        (env.producer out) v ss = some si →
      tmap_get st.tensor_infos v = some existing →
      is_same_slice_info si existing = false →
      backward_update_slice lg env ss ots out st = none) ∧
    (∀ (lg : LgInfo) (env : PropEnv) (ss : shape_secs_t) (fuel : Nat)
        (st' : BwState),
      stripe_mine_idx_run lg env ss fuel = some st' →
      ∀ u ∈ st'.op_set, op_consistent lg env ss st'.tensor_infos u) := by
  constructor
  · intro lg env ss ots out st v si existing hgin hv hwt hg hm hns
    rw [backward_update_slice, if_neg (by rw [hgin]; exact Bool.false_ne_true)]
    exact bus_operands_conflict lg env ss ots (env.producer out)
      ((tmap_get st.tensor_infos out).getD {}) v si existing hwt hg hns
      (env.operands (env.producer out))
      { st with op_set := env.producer out :: st.op_set } hv hm
  · intro lg env ss fuel st' hrun u hu
    rw [stripe_mine_idx_run] at hrun
    have hseedbr := seed_out_tensors_branchs lg env ss lg.group_outs
      ⟨[], [], []⟩ [] (by intro b hb; cases hb)
    have hseedops := seed_out_tensors_ops lg env ss lg.group_outs ⟨[], [], []⟩ []
    have hseedco : ∀ w ∈ (seed_out_tensors lg env ss lg.group_outs
        ⟨[], [], []⟩ []).1.op_set,
        op_consistent lg env ss (seed_out_tensors lg env ss lg.group_outs
          ⟨[], [], []⟩ []).1.tensor_infos w := by
      rw [hseedops]
      intro w hw
      cases hw
    exact (stripe_mine_loop_inv lg env ss _ fuel _ st' hrun hseedbr hseedco).2
      u hu

/-- Concrete environment for the C1 witness: a two-op elementwise chain
`value 0 → op 10 → value 1 → op 11 → value 2` with identity backward
callbacks. -/
def C1wit_env : PropEnv :=
  { operands := fun op => if op = 10 then [0] else if op = 11 then [1] else []
    bcast_kind := fun _ => false
    bwN := fun _ _ _ oi os => (true, oi, os)
    bwH := fun _ _ _ oi os => (true, oi, os)
    shape := fun _ => []
    valN := fun _ => 1
    valH := fun _ => 4
    producer := fun v => if v = 2 then 11 else if v = 1 then 10 else 0
    from_weight_or_none := fun _ => false
    users := fun v => if v = 1 then [11] else if v = 0 then [10] else [99] }

/-- The group of the C1 witness. -/
def C1wit_lg : LgInfo :=
  { group_ops := [10, 11], group_ins := [0], group_outs := [2] }

/-- Witness for C1: (a) with value 1 already recorded as `h = [(9,9)]` while
the consumer derives `h = [(0,4)]`, processing value 2 fails; (b) the
separate successful run of the same graph is consistent at both processed
ops. -/
theorem claim_C1_witness :
    (C1wit_lg.group_ins.contains 2 = false ∧
      backward_update_slice C1wit_lg C1wit_env ⟨1, 1⟩ [] 2
        ⟨[], [(2, ⟨[(0, 1)], [(0, 4)]⟩), (1, ⟨[(0, 1)], [(9, 9)]⟩)], []⟩ =
        none) ∧
    (stripe_mine_idx_run C1wit_lg C1wit_env ⟨1, 1⟩ 10 =
      some ⟨[], [(2, ⟨[(0, 1)], [(0, 4)]⟩), (1, ⟨[(0, 1)], [(0, 4)]⟩),
        (0, ⟨[(0, 1)], [(0, 4)]⟩)], [10, 11]⟩ ∧
     ∀ u ∈ [10, 11],
       op_consistent C1wit_lg C1wit_env ⟨1, 1⟩
         [(2, ⟨[(0, 1)], [(0, 4)]⟩), (1, ⟨[(0, 1)], [(0, 4)]⟩),
          (0, ⟨[(0, 1)], [(0, 4)]⟩)] u) := by
  refine ⟨⟨by decide, ?_⟩, by decide, ?_⟩
  · exact claim_C1_conflict_and_consistency.1 C1wit_lg C1wit_env ⟨1, 1⟩ [] 2
      ⟨[], [(2, ⟨[(0, 1)], [(0, 4)]⟩), (1, ⟨[(0, 1)], [(9, 9)]⟩)], []⟩ 1
      ⟨[(0, 1)], [(0, 4)]⟩ ⟨[(0, 1)], [(9, 9)]⟩ (by decide) (by decide)
      (by decide) (by decide) (by decide) (by decide)
  · exact claim_C1_conflict_and_consistency.2 C1wit_lg C1wit_env ⟨1, 1⟩ 10
      ⟨[], [(2, ⟨[(0, 1)], [(0, 4)]⟩), (1, ⟨[(0, 1)], [(0, 4)]⟩),
        (0, ⟨[(0, 1)], [(0, 4)]⟩)], [10, 11]⟩ (by decide)

/-- Concrete environment for the C2 counterexample: a two-op chain
`value 0 → op 10 → value 1 → op 11 → value 2` with a conv-like height
callback whose backward images overlap (receptive-field style). -/
def C2cex_env : PropEnv :=
  { operands := fun op => if op = 10 then [0] else if op = 11 then [1] else []
    bcast_kind := fun _ => false
    bwN := fun _ _ _ _ _ => (true, 0, 0)
    bwH := fun _ _ _ oi _ => if oi = 0 then (true, 0, 3) else (true, 1, 3)
    shape := fun _ => []
    valN := fun _ => 1
    valH := fun _ => 4
    producer := fun v => if v = 2 then 11 else if v = 1 then 10 else 0
    from_weight_or_none := fun _ => false
    users := fun v => if v = 1 then [11] else if v = 0 then [10] else [99] }

/-- The group of the C2 counterexample. -/
def C2cex_lg : LgInfo :=
  { group_ops := [10, 11], group_ins := [0], group_outs := [2] }

/-- C2: the claim that on success EVERY tensor record's slice pairs are
contiguous, non-overlapping and sum to the true extent is FALSE: with a
conv-like overlapping height callback, exact-mode propagation succeeds and
the intermediate tensor (value 1, height extent 4, not a broadcast operand)
receives the height pairs `[(0,3), (1,3)]` — overlapping, not contiguous,
and summing to 6 ≠ 4. -/
theorem claim_C2_cex :
    (stripe_mine_idx_slice C2cex_lg C2cex_env ⟨1, 2⟩ 10 []).bind
        (fun m => tmap_get m 1) =
      some ⟨[(0, 1)], [(0, 3), (1, 3)]⟩ ∧
    C2cex_env.valH 1 = 4 ∧
    slices_len_sum [((0 : Int), (3 : Int)), (1, 3)] = 6 ∧
    slices_contiguous [((0 : Int), (3 : Int)), (1, 3)] = false ∧
    ¬ exact_partition [((0 : Int), (3 : Int)), (1, 3)] 4 ∧
    C2cex_env.valH 1 ≠ 1 := by
  refine ⟨by decide, rfl, by decide, by decide, by decide, by decide⟩

/-- C2 (amended): on success of exact-mode propagation, every GROUP-OUTPUT
tensor's record is exactly the even partition produced by
`get_out_slice_info`, which — for section counts between 1 and the true
extent — is contiguous, sorted, non-overlapping and sums to the true extent
on both dimensions.  Interior tensors derived through the op callbacks obey
only the weaker per-step checks (a conv-like callback legitimately produces
overlapping slices whose lengths sum to more than the extent, which the
separate `check_hsecs` 1.5x guard is meant to bound). -/
theorem claim_C2_amended (lg : LgInfo) (env : PropEnv) (ss : shape_secs_t)
    (fuel : Nat) (st' : BwState)
    (hrun : stripe_mine_idx_run lg env ss fuel = some st') :
    ∀ out ∈ lg.group_outs,
      tmap_get st'.tensor_infos out =
        some (get_out_slice_info ss (env.valN out) (env.valH out)) ∧
      (1 ≤ ss.nsecs → ss.nsecs ≤ env.valN out →
       1 ≤ ss.hsecs → ss.hsecs ≤ env.valH out →
        first_pieces_absorb_remainder
          (get_out_slice_info ss (env.valN out) (env.valH out)).n
          (env.valN out) ss.nsecs ∧
        first_pieces_absorb_remainder
          (get_out_slice_info ss (env.valN out) (env.valH out)).h
          (env.valH out) ss.hsecs) := by
  intro out hout
  constructor
  · rw [stripe_mine_idx_run] at hrun
    refine stripe_mine_loop_mono lg env ss _ fuel _ st' hrun out _ ?_
    exact seed_out_tensors_get lg env ss lg.group_outs ⟨[], [], []⟩ [] out hout
  · intro h1 h2 h3 h4
    exact ⟨out_slice_dim_partition ss.nsecs (env.valN out) h1 h2,
      out_slice_dim_partition ss.hsecs (env.valH out) h3 h4⟩

/-- Witness for C2 (amended) on the counterexample's own successful run: the
group output (value 2, batch extent 1, height extent 4, factors `{1,2}`)
carries exactly the even partition `n = [(0,1)]`, `h = [(0,2),(2,2)]`. -/
theorem claim_C2_witness :
    (stripe_mine_idx_run C2cex_lg C2cex_env ⟨1, 2⟩ 10 =
      some ⟨[], [(2, ⟨[(0, 1)], [(0, 2), (2, 2)]⟩),
        (1, ⟨[(0, 1)], [(0, 3), (1, 3)]⟩),
        (0, ⟨[(0, 1)], [(0, 3), (1, 3)]⟩)], [10, 11]⟩ ∧
      2 ∈ C2cex_lg.group_outs) ∧
    (tmap_get [(2, ⟨[(0, 1)], [(0, 2), (2, 2)]⟩),
        (1, ⟨[(0, 1)], [(0, 3), (1, 3)]⟩),
        (0, ⟨[(0, 1)], [(0, 3), (1, 3)]⟩)] 2 =
      some (get_out_slice_info ⟨1, 2⟩ (C2cex_env.valN 2) (C2cex_env.valH 2)) ∧
     (1 ≤ (1 : Int) → (1 : Int) ≤ C2cex_env.valN 2 →
      1 ≤ (2 : Int) → (2 : Int) ≤ C2cex_env.valH 2 →
       first_pieces_absorb_remainder
         (get_out_slice_info ⟨1, 2⟩ (C2cex_env.valN 2) (C2cex_env.valH 2)).n
         (C2cex_env.valN 2) 1 ∧
       first_pieces_absorb_remainder
         (get_out_slice_info ⟨1, 2⟩ (C2cex_env.valN 2) (C2cex_env.valH 2)).h
         (C2cex_env.valH 2) 2)) := by
  refine ⟨⟨by decide, by decide⟩, ?_⟩
  exact claim_C2_amended C2cex_lg C2cex_env ⟨1, 2⟩ 10
    ⟨[], [(2, ⟨[(0, 1)], [(0, 2), (2, 2)]⟩),
      (1, ⟨[(0, 1)], [(0, 3), (1, 3)]⟩),
      (0, ⟨[(0, 1)], [(0, 3), (1, 3)]⟩)], [10, 11]⟩ (by decide) 2 (by decide)

end LayerGroup
